import Mathlib

/-!
Verification development for the markup-parsing core of the
react-native-fabric-rich-text repository.

The C++ sources under src/cpp/parsing are shallowly embedded here.
Strings are modelled as lists of byte values (`Bytes := List Nat`,
each entry in 0..255), matching the byte-wise processing of the C++
code (UTF-8 sequences are handled byte by byte exactly as the source
does).  C++ `float` font scales never undergo arithmetic inside the
embedded scope (they are only assigned from a fixed set of literals
and compared), so they are modelled as the literal value times 100
(`h1 = 2.0f` becomes `200`, `h3 = 1.17f` becomes `117`, default
`1.0f` becomes `100`).  C++ `int` counters that are provably
non-negative in every reachable state (`linkDepth`, `itemCounter`)
are modelled as `Nat`; the `DirectionContext` depth counters are
modelled as `Int` since their non-negativity is exactly what is to be
proved.  Styling attributes of an output fragment (font size, colors,
decorations) are arithmetic on the builder's float parameters only;
they do not influence which fragments are emitted, the fragment
texts, the link-URL array, or the accessibility label, and are not
modelled.
-/

set_option maxRecDepth 20000
set_option maxHeartbeats 2000000

abbrev Bytes := List Nat

/-- UTF-8 encoding of a single character, used to write byte-level test
strings conveniently. -/
def utf8Bytes (c : Char) : Bytes :=
  let n := c.toNat
  if n < 128 then [n]
  else if n < 2048 then [192 + n / 64, 128 + n % 64]
  else if n < 65536 then [224 + n / 4096, 128 + (n / 64) % 64, 128 + n % 64]
  else [240 + n / 262144, 128 + (n / 4096) % 64, 128 + (n / 64) % 64, 128 + n % 64]

/-- Byte-level view of a Lean string literal (UTF-8). -/
def bytesOf (s : String) : Bytes :=
  (s.data.map utf8Bytes).flatten

/-- C `isspace` on an unsigned char in the C locale (space, TAB, LF, VT, FF, CR);
bytes above 127 are not whitespace. -/
def cIsSpace (b : Nat) : Bool :=
  b == 32 || b == 9 || b == 10 || b == 11 || b == 12 || b == 13

/-- C `tolower` on an unsigned char in the C locale: only ASCII A-Z map down. -/
def toLowerB (b : Nat) : Nat :=
  if 65 ≤ b ∧ b ≤ 90 then b + 32 else b

/-- C `isdigit` on an unsigned char. -/
def isDigitB (b : Nat) : Bool :=
  48 ≤ b && b ≤ 57

/-- First index at which the predicate holds (std::string::find of a char class). -/
def firstIdxB (p : Nat → Bool) : Bytes → Option Nat
  | [] => none
  | c :: rest => if p c then some 0 else (firstIdxB p rest).map (· + 1)

/-- std::string::find of a substring: first index where `pat` occurs. -/
def findSub (pat : Bytes) : Bytes → Option Nat
  | [] => if pat = [] then some 0 else none
  | c :: rest =>
    if pat.isPrefixOf (c :: rest) then some 0 else (findSub pat rest).map (· + 1)

/-- Right trim of trailing C whitespace (`while (... isspace(back())) pop_back()`). -/
def rtrimWs (l : Bytes) : Bytes :=
  ((l.reverse).dropWhile cIsSpace).reverse

/-- Recursion of the decimal printer, with explicit fuel so that the
definition is structural: emit the leading digits of n / 10, then the last
digit.  A number n has at most n + 1 decimal digits, so fuel n + 1 always
suffices. -/
def decDigitsGo : Nat → Nat → Bytes
  | 0, _ => []
  | fuel + 1, n =>
    if n < 10 then [48 + n]
    else decDigitsGo fuel (n / 10) ++ [48 + n % 10]

/-- Decimal digit bytes of a natural number, as produced by std::to_string. -/
def decDigits (n : Nat) : Bytes := decDigitsGo (n + 1) n

/-! ## TextNormalizer.cpp -/

/-- BLOCK_LEVEL_TAGS membership test (TextNormalizer.cpp lines 13-27). -/
def isBlockLevelTag (t : Bytes) : Bool :=
  t == bytesOf "p" || t == bytesOf "div" ||
  t == bytesOf "h1" || t == bytesOf "h2" || t == bytesOf "h3" ||
  t == bytesOf "h4" || t == bytesOf "h5" || t == bytesOf "h6" ||
  t == bytesOf "ul" || t == bytesOf "ol" || t == bytesOf "li" ||
  t == bytesOf "blockquote" || t == bytesOf "pre" || t == bytesOf "hr" ||
  t == bytesOf "br" || t == bytesOf "table" || t == bytesOf "thead" ||
  t == bytesOf "tbody" || t == bytesOf "tr" || t == bytesOf "th" ||
  t == bytesOf "td" || t == bytesOf "header" || t == bytesOf "footer" ||
  t == bytesOf "section" || t == bytesOf "article" || t == bytesOf "nav" ||
  t == bytesOf "aside"

/-- INLINE_FORMATTING_TAGS membership test (TextNormalizer.cpp lines 20-31). -/
def isInlineFormattingTag (t : Bytes) : Bool :=
  t == bytesOf "strong" || t == bytesOf "b" || t == bytesOf "em" ||
  t == bytesOf "i" || t == bytesOf "u" || t == bytesOf "s" ||
  t == bytesOf "mark" || t == bytesOf "small" || t == bytesOf "sub" ||
  t == bytesOf "sup" || t == bytesOf "code" || t == bytesOf "span" ||
  t == bytesOf "a" || t == bytesOf "bdi" || t == bytesOf "bdo"

/-- Characters that continue a closing-tag-name scan (anything other than
the closing angle bracket or whitespace). -/
def tagNameChar (b : Nat) : Bool := !(b == 62) && !(cIsSpace b)

/-- The closing-tag-name scan performed when `normalizeInterTagWhitespace`
meets a `<`: if the next character is `/`, the tag name (up to `>` or
whitespace) is read ahead and lowercased; otherwise the memo is cleared
(TextNormalizer.cpp lines 51-65). -/
def interTagScanTag : Bytes → Bytes
  | [] => []
  | c :: r => if c == 47 then (r.takeWhile tagNameChar).map toLowerB else []

/-- Main loop of normalizeInterTagWhitespace (TextNormalizer.cpp lines 33-81),
with the two flags and the last-closed-tag memo as parameters. -/
def normAux (bft abc : Bool) (lct : Bytes) : Bytes → Bytes
  | [] => []
  | c :: rest =>
    if bft && cIsSpace c then normAux bft abc lct rest
    else if c == 60 then 60 :: normAux false false (interTagScanTag rest) rest
    else if c == 62 then 62 :: normAux bft (!(lct == []) && isBlockLevelTag lct) lct rest
    else if abc && cIsSpace c then normAux bft abc lct rest
    else c :: normAux false false lct rest

/-- normalizeInterTagWhitespace (TextNormalizer.cpp lines 33-81). -/
def normalizeInterTagWhitespace (html : Bytes) : Bytes :=
  normAux true false [] html

/-- isParagraphBreak (TextNormalizer.cpp lines 235-242): nonempty and
containing only whitespace. -/
def isParagraphBreak (text : Bytes) : Bool :=
  text.all (fun c => c == 10 || cIsSpace c) && !text.isEmpty

/-- Whitespace-collapsing loop of normalizeSegmentText
(TextNormalizer.cpp lines 258-281). -/
def normSegGo (lws hasC : Bool) : Bytes → Bytes
  | [] => []
  | c :: rest =>
    if cIsSpace c then
      if c == 10 then
        if hasC then 10 :: normSegGo false hasC rest else normSegGo lws hasC rest
      else
        if !lws then 32 :: normSegGo true hasC rest else normSegGo lws hasC rest
    else c :: normSegGo false true rest

/-- normalizeSegmentText (TextNormalizer.cpp lines 244-282). -/
def normalizeSegmentText (text : Bytes) (preserveNewlines preserveLeadingSpace : Bool) :
    Bytes :=
  if preserveNewlines then text.filter (· == 10)
  else normSegGo (!preserveLeadingSpace) preserveLeadingSpace text

/-! ## TextNormalizer.cpp: stripHtmlTags -/

/-- List kind (TextNormalizer.h FabricRichListType). -/
inductive FabricRichListType where
  | Ordered
  | Unordered
deriving DecidableEq, Repr

/-- List context record (TextNormalizer.h FabricRichListContext). -/
structure FabricRichListContext where
  type : FabricRichListType
  itemCounter : Nat
  nestingLevel : Nat
deriving DecidableEq, Repr

/-- The UTF-8 bullet marker plus trailing space emitted before unordered
list items. -/
def bulletMarker : Bytes := [226, 128, 162, 32]

/-- The li-open handler of stripHtmlTags (TextNormalizer.cpp lines 137-156):
given the list stack and the output built so far, returns the updated stack
and output.  Note that the indent level here is NOT capped. -/
def stripLiHandle (listStack : List FabricRichListContext) (acc : Bytes) :
    List FabricRichListContext × Bytes :=
  let acc :=
    if !acc.isEmpty && !(acc.getLast? == some 10) then acc ++ [10] else acc
  match listStack with
  | [] => ([], acc ++ bulletMarker)
  | ctx :: restL =>
    let ctr := ctx.itemCounter + 1
    let indentLevel := (ctx :: restL).length - 1
    let acc := if indentLevel > 0 then acc ++ List.replicate (indentLevel * 4) 32 else acc
    let acc :=
      if ctx.type == FabricRichListType.Ordered then acc ++ decDigits ctr ++ [46, 32]
      else acc ++ bulletMarker
    ({ ctx with itemCounter := ctr } :: restL, acc)

/-- Tag-scanning pass of stripHtmlTags (TextNormalizer.cpp lines 87-172).
State: output accumulator, inTag/inScript/inStyle flags, list stack and the
whitespace-stripped tag-name buffer. -/
def stripGo (acc : Bytes) (inTag inScript inStyle : Bool)
    (listStack : List FabricRichListContext) (tagName : Bytes) : Bytes → Bytes
  | [] => acc
  | c :: rest =>
    if c == 60 then stripGo acc true inScript inStyle listStack [] rest
    else if c == 62 then
      let lowerTag := tagName.map toLowerB
      if lowerTag == bytesOf "script" then
        stripGo acc false true inStyle listStack [] rest
      else if lowerTag == bytesOf "/script" then
        stripGo acc false false inStyle listStack [] rest
      else if lowerTag == bytesOf "style" then
        stripGo acc false inScript true listStack [] rest
      else if lowerTag == bytesOf "/style" then
        stripGo acc false inScript false listStack [] rest
      else if lowerTag == bytesOf "br" || lowerTag == bytesOf "br/" ||
          lowerTag == bytesOf "br /" then
        stripGo (acc ++ [10]) false inScript inStyle listStack [] rest
      else if lowerTag == bytesOf "/p" || lowerTag == bytesOf "/div" ||
          lowerTag == bytesOf "/h1" || lowerTag == bytesOf "/h2" ||
          lowerTag == bytesOf "/h3" || lowerTag == bytesOf "/h4" ||
          lowerTag == bytesOf "/h5" || lowerTag == bytesOf "/h6" then
        stripGo (acc ++ [10, 10]) false inScript inStyle listStack [] rest
      else if lowerTag == bytesOf "ul" then
        stripGo acc false inScript inStyle
          (⟨FabricRichListType.Unordered, 0, listStack.length + 1⟩ :: listStack) [] rest
      else if lowerTag == bytesOf "ol" then
        stripGo acc false inScript inStyle
          (⟨FabricRichListType.Ordered, 0, listStack.length + 1⟩ :: listStack) [] rest
      else if lowerTag == bytesOf "/ul" || lowerTag == bytesOf "/ol" then
        let listStack := listStack.tail
        let acc := if listStack.isEmpty then acc ++ [10, 10] else acc
        stripGo acc false inScript inStyle listStack [] rest
      else if lowerTag == bytesOf "li" then
        let p := stripLiHandle listStack acc
        stripGo p.2 false inScript inStyle p.1 [] rest
      else stripGo acc false inScript inStyle listStack [] rest
    else if inTag then
      stripGo acc inTag inScript inStyle listStack
        (if !cIsSpace c then tagName ++ [c] else tagName) rest
    else if !inScript && !inStyle then
      stripGo (acc ++ [c]) inTag inScript inStyle listStack tagName rest
    else stripGo acc inTag inScript inStyle listStack tagName rest

/-- Entity-decoding pass of stripHtmlTags (TextNormalizer.cpp lines
174-203).  The first argument is recursion fuel, so that the definition is
structural: every step consumes at least one input byte, so fuel equal to
the input length always suffices. -/
def entityDecodeGo : Nat → Bytes → Bytes
  | 0, l => l
  | fuel + 1, l =>
    match l with
    | [] => []
    | c :: rest =>
      if c == 38 then
        match firstIdxB (· == 59) rest with
        | some k =>
          if k + 1 < 10 then
            let entity := 38 :: rest.take (k + 1)
            let decoded : Bytes :=
              if entity == bytesOf "&amp;" then [38]
              else if entity == bytesOf "&lt;" then [60]
              else if entity == bytesOf "&gt;" then [62]
              else if entity == bytesOf "&quot;" then [34]
              else if entity == bytesOf "&apos;" then [39]
              else if entity == bytesOf "&nbsp;" then [32]
              else entity
            decoded ++ entityDecodeGo fuel (rest.drop (k + 1))
          else c :: entityDecodeGo fuel rest
        | none => c :: entityDecodeGo fuel rest
      else c :: entityDecodeGo fuel rest

/-- Entity-decoding pass of stripHtmlTags (TextNormalizer.cpp lines 174-203). -/
def entityDecode (l : Bytes) : Bytes := entityDecodeGo l.length l

/-- Whitespace-collapsing pass of stripHtmlTags (TextNormalizer.cpp lines 205-225). -/
def stripWsNorm (lws : Bool) : Bytes → Bytes
  | [] => []
  | c :: rest =>
    if cIsSpace c then
      if c == 10 then
        if !lws then 10 :: stripWsNorm true rest else stripWsNorm lws rest
      else
        if !lws then 32 :: stripWsNorm true rest else stripWsNorm lws rest
    else c :: stripWsNorm false rest

/-- stripHtmlTags (TextNormalizer.cpp lines 83-233). -/
def stripHtmlTags (html : Bytes) : Bytes :=
  rtrimWs (stripWsNorm true (entityDecode (stripGo [] false false false [] [] html)))

/-! ## StyleParser.cpp: parseHexColor -/

/-- Hex digit test as used by strtoul base 16. -/
def isHexDigitB (b : Nat) : Bool :=
  (48 ≤ b && b ≤ 57) || (97 ≤ b && b ≤ 102) || (65 ≤ b && b ≤ 70)

/-- Numeric value of a hex digit byte. -/
def hexDigitVal (b : Nat) : Nat :=
  if b ≤ 57 then b - 48 else if b ≤ 70 then b - 55 else b - 87

/-- Value of a list of hex digit bytes, most significant first. -/
def hexValOf (l : Bytes) : Nat :=
  l.foldl (fun a d => 16 * a + hexDigitVal d) 0

/-- std::stoul with base 16 (via strtoul): skip C whitespace, one optional
sign, an optional 0x/0X prefix when a hex digit follows, then the maximal
run of hex digits.  `none` models a thrown exception (no digits, or a
pre-negation value above ULONG_MAX on a 64-bit unsigned long); a minus
sign wraps the value modulo 2^64. -/
def stoulHex (l : Bytes) : Option Nat :=
  let l1 := l.dropWhile cIsSpace
  let neg := l1.head? == some 45
  let l2 := if l1.head? == some 43 || l1.head? == some 45 then l1.tail else l1
  let l3 :=
    if l2.head? == some 48 &&
        (l2.tail.head? == some 120 || l2.tail.head? == some 88) &&
        (match (l2.drop 2).head? with | some d => isHexDigitB d | none => false) then
      l2.drop 2
    else l2
  let digits := l3.takeWhile isHexDigitB
  if digits = [] then none
  else
    let v := hexValOf digits
    if v > 2 ^ 64 - 1 then none
    else some (if neg then (2 ^ 64 - v) % 2 ^ 64 else v)

/-- parseHexColor (StyleParser.cpp lines 14-41), returning the ARGB bit
pattern of the returned int32_t as a natural number (0 means unset). -/
def parseHexColor (colorStr : Bytes) : Nat :=
  match colorStr with
  | [] => 0
  | c0 :: hex0 =>
    if !(c0 == 35) then 0
    else
      let hex : Bytes :=
        match hex0 with
        | [a, b, c] => [a, a, b, b, c, c]
        | _ => hex0
      if hex.length ≠ 6 then 0
      else
        match stoulHex hex with
        | none => 0
        | some rgb => if rgb > 0xFFFFFF then 0 else 0xFF000000 ||| rgb

/-! ## UnicodeUtils.cpp -/

/-- Writing direction (react/renderer/attributedstring primitives). -/
inductive WritingDirection where
  | Natural
  | LeftToRight
  | RightToLeft
deriving DecidableEq, Repr

/-- isStrongRTL (UnicodeUtils.cpp lines 12-34). -/
def isStrongRTL (cp : Nat) : Bool :=
  (0x0590 ≤ cp && cp ≤ 0x05FF) || (0x0600 ≤ cp && cp ≤ 0x06FF) ||
  (0x0750 ≤ cp && cp ≤ 0x077F) || (0x08A0 ≤ cp && cp ≤ 0x08FF) ||
  (0x0700 ≤ cp && cp ≤ 0x074F) || (0x0780 ≤ cp && cp ≤ 0x07BF) ||
  (0x07C0 ≤ cp && cp ≤ 0x07FF) || (0xFB1D ≤ cp && cp ≤ 0xFB4F) ||
  (0xFB50 ≤ cp && cp ≤ 0xFDFF) || (0xFE70 ≤ cp && cp ≤ 0xFEFF)

/-- isStrongLTR (UnicodeUtils.cpp lines 36-51). -/
def isStrongLTR (cp : Nat) : Bool :=
  (0x0041 ≤ cp && cp ≤ 0x005A) || (0x0061 ≤ cp && cp ≤ 0x007A) ||
  (0x00C0 ≤ cp && cp ≤ 0x024F) || (0x1E00 ≤ cp && cp ≤ 0x1EFF) ||
  (0x0370 ≤ cp && cp ≤ 0x03FF) || (0x0400 ≤ cp && cp ≤ 0x04FF) ||
  (0x10A0 ≤ cp && cp ≤ 0x10FF)

/-- Classify one decoded code point; keep scanning on a neutral one. -/
def dirStep (cp : Nat) (fallback : WritingDirection) : WritingDirection :=
  if isStrongRTL cp then WritingDirection.RightToLeft
  else if isStrongLTR cp then WritingDirection.LeftToRight
  else fallback

/-- detectDirectionFromText (UnicodeUtils.cpp lines 53-104): UTF-8 decode,
return the direction of the first strong character, defaulting to LTR.
A truncated multi-byte sequence at the end breaks the scan (default LTR);
an invalid lead byte is skipped. -/
def detectDirectionFromText : Bytes → WritingDirection
  | [] => WritingDirection.LeftToRight
  | c :: rest =>
    if c < 0x80 then dirStep c (detectDirectionFromText rest)
    else if c &&& 0xE0 == 0xC0 then
      match rest with
      | [] => WritingDirection.LeftToRight
      | c2 :: rest2 =>
        dirStep (((c &&& 0x1F) <<< 6) ||| (c2 &&& 0x3F)) (detectDirectionFromText rest2)
    else if c &&& 0xF0 == 0xE0 then
      match rest with
      | c2 :: c3 :: rest3 =>
        dirStep (((c &&& 0x0F) <<< 12) ||| ((c2 &&& 0x3F) <<< 6) ||| (c3 &&& 0x3F))
          (detectDirectionFromText rest3)
      | _ => WritingDirection.LeftToRight
    else if c &&& 0xF8 == 0xF0 then
      match rest with
      | c2 :: c3 :: c4 :: rest4 =>
        dirStep
          (((c &&& 0x07) <<< 18) ||| ((c2 &&& 0x3F) <<< 12) |||
            ((c3 &&& 0x3F) <<< 6) ||| (c4 &&& 0x3F))
          (detectDirectionFromText rest4)
      | _ => WritingDirection.LeftToRight
    else detectDirectionFromText rest

/-! ## DirectionContext.cpp -/

/-- DirectionContext state (DirectionContext.h lines 23-63).  The stacks
have their most recently pushed element at the head.  The depth counters
are C++ ints, modelled as Int. -/
structure DirectionContext where
  baseDirection : WritingDirection := WritingDirection.Natural
  currentDirection : WritingDirection := WritingDirection.Natural
  isolationDepth : Int := 0
  overrideDepth : Int := 0
  directionStack : List WritingDirection := []
  isBdiStack : List Bool := []
  isBdoStack : List Bool := []
deriving DecidableEq, Repr

/-- DirectionContext::enterElement (DirectionContext.cpp lines 13-58). -/
def enterElement (tag dirAttr textContent : Bytes) (st : DirectionContext) :
    DirectionContext :=
  let isBdi := tag == bytesOf "bdi"
  let isBdo := tag == bytesOf "bdo"
  let st :=
    { st with
      directionStack := st.currentDirection :: st.directionStack
      isBdiStack := isBdi :: st.isBdiStack
      isBdoStack := isBdo :: st.isBdoStack
      isolationDepth := if isBdi then st.isolationDepth + 1 else st.isolationDepth
      overrideDepth := if isBdo then st.overrideDepth + 1 else st.overrideDepth }
  if !dirAttr.isEmpty then
    let lowerDir := dirAttr.map toLowerB
    if lowerDir == bytesOf "rtl" then
      { st with currentDirection := WritingDirection.RightToLeft }
    else if lowerDir == bytesOf "ltr" then
      { st with currentDirection := WritingDirection.LeftToRight }
    else if lowerDir == bytesOf "auto" then
      if !textContent.isEmpty then
        { st with currentDirection := detectDirectionFromText textContent }
      else st
    else st
  else if isBdi then
    if !textContent.isEmpty then
      { st with currentDirection := detectDirectionFromText textContent }
    else st
  else st

/-- DirectionContext::exitElement (DirectionContext.cpp lines 60-82).
The tag argument is unused by the implementation. -/
def exitElement (_tag : Bytes) (st : DirectionContext) : DirectionContext :=
  if st.directionStack.isEmpty then st
  else
    let st :=
      match st.isBdiStack with
      | [] => st
      | b :: r =>
        { st with
          isolationDepth := if b then st.isolationDepth - 1 else st.isolationDepth
          isBdiStack := r }
    let st :=
      match st.isBdoStack with
      | [] => st
      | b :: r =>
        { st with
          overrideDepth := if b then st.overrideDepth - 1 else st.overrideDepth
          isBdoStack := r }
    match st.directionStack with
    | [] => st
    | d :: r => { st with currentDirection := d, directionStack := r }

/-- One call made against a DirectionContext, for quantifying over arbitrary
call sequences of enterElement and exitElement. -/
inductive DirOp where
  | enterOp (tag dirAttr textContent : Bytes)
  | exitOp (tag : Bytes)
deriving DecidableEq, Repr

/-- Apply a sequence of DirectionContext calls in order. -/
def applyDirOps (ops : List DirOp) (st : DirectionContext) : DirectionContext :=
  ops.foldl
    (fun s op =>
      match op with
      | DirOp.enterOp tag dirAttr textContent => enterElement tag dirAttr textContent s
      | DirOp.exitOp tag => exitElement tag s)
    st

/-! ## MarkupSegmentParser.cpp -/

/-- getHeadingScale (MarkupSegmentParser.cpp lines 15-23), float scale
modelled as 100 times the literal. -/
def getHeadingScale (tag : Bytes) : Nat :=
  if tag == bytesOf "h1" then 200
  else if tag == bytesOf "h2" then 150
  else if tag == bytesOf "h3" then 117
  else if tag == bytesOf "h4" then 100
  else if tag == bytesOf "h5" then 83
  else if tag == bytesOf "h6" then 67
  else 100

/-- The heading-tag test used inside updateStyleFromStack
(MarkupSegmentParser.cpp line 229): first byte is h, size is 2, second
byte is a digit 1..6. -/
def isHeadingB (tag : Bytes) : Bool :=
  match tag with
  | [h, d] => h == 104 && (49 ≤ d && d ≤ 54)
  | _ => false

/-- Character class trimmed from the front of a URL by isAllowedUrlScheme
(" \t\n\r"; note: no vertical tab or form feed). -/
def urlTrimWs (b : Nat) : Bool :=
  b == 32 || b == 9 || b == 10 || b == 13

/-- isAllowedUrlScheme (MarkupSegmentParser.cpp lines 35-70).  Mirrors the
code: lowercase a copy; find_first_not_of(" \t\n\r") leaves the string
unchanged when every character is in the set; then the allowlist checks. -/
def isAllowedUrlScheme (url : Bytes) : Bool :=
  let lowerUrl := url.map toLowerB
  let t := if lowerUrl.all urlTrimWs then lowerUrl else lowerUrl.dropWhile urlTrimWs
  if (bytesOf "http://").isPrefixOf t || (bytesOf "https://").isPrefixOf t ||
      (bytesOf "mailto:").isPrefixOf t || (bytesOf "tel:").isPrefixOf t then
    true
  else if t.isEmpty || t.head? == some 47 || t.head? == some 35 then true
  else
    match firstIdxB (· == 58) t, firstIdxB (· == 47) t with
    | none, _ => true
    | some colonPos, some slashPos => decide (slashPos < colonPos)
    | some _, none => false

/-- extractHrefUrl (MarkupSegmentParser.cpp lines 72-96): locate href=,
require a quote delimiter and a nonempty quoted value, then apply the
scheme allowlist. -/
def extractHrefUrl (fullTag : Bytes) : Bytes :=
  match findSub (bytesOf "href=") fullTag with
  | none => []
  | some hrefPos =>
    match fullTag.drop (hrefPos + 5) with
    | [] => []
    | q :: rest2 =>
      if q == 34 || q == 39 then
        match firstIdxB (· == q) rest2 with
        | none => []
        | some k =>
          if k > 0 then
            let url := rest2.take k
            if !isAllowedUrlScheme url then [] else url
          else []
      else []

/-- extractDirAttr (MarkupSegmentParser.cpp lines 98-117): same scan for
dir=, without the scheme check. -/
def extractDirAttr (fullTag : Bytes) : Bytes :=
  match findSub (bytesOf "dir=") fullTag with
  | none => []
  | some dirPos =>
    match fullTag.drop (dirPos + 4) with
    | [] => []
    | q :: rest2 =>
      if q == 34 || q == 39 then
        match firstIdxB (· == q) rest2 with
        | none => []
        | some k => if k > 0 then rest2.take k else []
      else []

/-- Look-ahead loop of extractTextForAutoDetection (MarkupSegmentParser.cpp
lines 119-164).  `closingPattern` is "</" ++ the tag to close; the depth
counter is dead code in the source (never incremented) and is carried over
faithfully. -/
def autoDetectGo (closingPattern : Bytes) (inNested : Bool) (depth : Nat) :
    Bytes → Bytes
  | [] => []
  | c :: rest =>
    if c == 60 then
      if closingPattern.isPrefixOf
          (((60 :: rest).take (closingPattern.length + 1)).map toLowerB) then
        if depth == 0 then [] else autoDetectGo closingPattern true (depth - 1) rest
      else autoDetectGo closingPattern true depth rest
    else if c == 62 then autoDetectGo closingPattern false depth rest
    else if !inNested then c :: autoDetectGo closingPattern inNested depth rest
    else autoDetectGo closingPattern inNested depth rest

/-- extractTextForAutoDetection (MarkupSegmentParser.cpp lines 119-164),
applied to the input suffix following the current position. -/
def extractTextForAutoDetection (tagToClose rest : Bytes) : Bytes :=
  autoDetectGo (60 :: 47 :: tagToClose) false 0 rest

/-- Styled text segment (MarkupSegmentParser.h FabricRichTextSegment). -/
structure FabricRichTextSegment where
  text : Bytes
  fontScale : Nat
  isBold : Bool
  isItalic : Bool
  isUnderline : Bool
  isStrikethrough : Bool
  isLink : Bool
  followsInlineElement : Bool
  parentTag : Bytes
  linkUrl : Bytes
  writingDirection : WritingDirection
  isBdiIsolated : Bool
  isBdoOverride : Bool
deriving DecidableEq, Repr

/-- Full mutable state of parseMarkupToSegments
(MarkupSegmentParser.cpp lines 166-194).  Stacks keep their top at the
head.  `linkDepth` is a C++ int but is only ever incremented, guardedly
decremented when positive, or reset to zero, so Nat is faithful. -/
structure ParseState where
  segments : List FabricRichTextSegment
  currentText : Bytes
  currentScale : Nat
  currentBold : Bool
  currentItalic : Bool
  currentUnderline : Bool
  currentStrikethrough : Bool
  currentLink : Bool
  currentParentTag : Bytes
  currentLinkUrl : Bytes
  nextFollowsInline : Bool
  tagStack : List Bytes
  listStack : List FabricRichListContext
  linkUrlStack : List Bytes
  linkDepth : Nat
  dirContext : DirectionContext
  inTag : Bool
  inScript : Bool
  inStyle : Bool
  tagName : Bytes
deriving DecidableEq, Repr

/-- Initial parser state. -/
def initState : ParseState :=
  { segments := [], currentText := [], currentScale := 100, currentBold := false,
    currentItalic := false, currentUnderline := false, currentStrikethrough := false,
    currentLink := false, currentParentTag := [], currentLinkUrl := [],
    nextFollowsInline := false, tagStack := [], listStack := [], linkUrlStack := [],
    linkDepth := 0, dirContext := {}, inTag := false, inScript := false,
    inStyle := false, tagName := [] }

/-- flushSegment (MarkupSegmentParser.cpp lines 196-217). -/
def flushSegment (closingInlineElement : Bool) (st : ParseState) : ParseState :=
  if st.currentText.isEmpty then { st with nextFollowsInline := closingInlineElement }
  else
    { st with
      segments := st.segments ++
        [{ text := st.currentText, fontScale := st.currentScale,
           isBold := st.currentBold, isItalic := st.currentItalic,
           isUnderline := st.currentUnderline,
           isStrikethrough := st.currentStrikethrough, isLink := st.currentLink,
           followsInlineElement := st.nextFollowsInline,
           parentTag := st.currentParentTag, linkUrl := st.currentLinkUrl,
           writingDirection := st.dirContext.currentDirection,
           isBdiIsolated := decide (st.dirContext.isolationDepth > 0),
           isBdoOverride := decide (st.dirContext.overrideDepth > 0) }]
      currentText := []
      nextFollowsInline := closingInlineElement }

/-- Per-tag style summary accumulated by updateStyleFromStack. -/
structure StyleAcc where
  scale : Nat
  bold : Bool
  italic : Bool
  underline : Bool
  strikethrough : Bool
  parentTag : Bytes
deriving DecidableEq, Repr

/-- One iteration of the tag-stack walk in updateStyleFromStack
(MarkupSegmentParser.cpp lines 228-252).  The sequence of independent
if statements of the source assigns each field at most once per tag,
written here as one record. -/
def styleStep (linkDepth : Nat) (acc : StyleAcc) (tag : Bytes) : StyleAcc :=
  { scale := if isHeadingB tag then getHeadingScale tag else acc.scale
    bold :=
      if isHeadingB tag || tag == bytesOf "strong" || tag == bytesOf "b" then true
      else acc.bold
    italic := if tag == bytesOf "em" || tag == bytesOf "i" then true else acc.italic
    underline :=
      if tag == bytesOf "u" || (tag == bytesOf "a" && decide (linkDepth > 0)) then true
      else acc.underline
    strikethrough := if tag == bytesOf "s" then true else acc.strikethrough
    parentTag := if isInlineFormattingTag tag then tag else acc.parentTag }

/-- The walk over the tag stack, bottom to top (the argument list is in
bottom-to-top order). -/
def styleFold (linkDepth : Nat) (l : List Bytes) : StyleAcc :=
  l.foldl (styleStep linkDepth)
    { scale := 100, bold := false, italic := false, underline := false,
      strikethrough := false, parentTag := [] }

/-- updateStyleFromStack (MarkupSegmentParser.cpp lines 219-253). -/
def updateStyleFromStack (st : ParseState) : ParseState :=
  let acc := styleFold st.linkDepth st.tagStack.reverse
  { st with
    currentScale := acc.scale
    currentBold := acc.bold
    currentItalic := acc.italic
    currentUnderline := acc.underline
    currentStrikethrough := acc.strikethrough
    currentLink := decide (st.linkDepth > 0)
    currentLinkUrl := match st.linkUrlStack with | [] => [] | u :: _ => u
    currentParentTag := acc.parentTag }

/-- Membership in the block set handled by the block open/close branches
(p, div, h1..h6; MarkupSegmentParser.cpp lines 287-289 and 304-306). -/
def isBlockPDH (t : Bytes) : Bool :=
  t == bytesOf "p" || t == bytesOf "div" ||
  t == bytesOf "h1" || t == bytesOf "h2" || t == bytesOf "h3" ||
  t == bytesOf "h4" || t == bytesOf "h5" || t == bytesOf "h6"

/-- Push a clean tag onto the tag stack. -/
def pushTag (cleanTag : Bytes) (st : ParseState) : ParseState :=
  { st with tagStack := cleanTag :: st.tagStack }

/-- Append bytes to the current text buffer. -/
def appendText (bs : Bytes) (st : ParseState) : ParseState :=
  { st with currentText := st.currentText ++ bs }

/-- Pop the matched tag from the tag stack. -/
def popTag (st : ParseState) : ParseState :=
  { st with tagStack := st.tagStack.tail }

/-- Record an element exit in the direction context. -/
def exitDir (cleanTag : Bytes) (st : ParseState) : ParseState :=
  { st with dirContext := exitElement cleanTag st.dirContext }

/-- Block-close branch (MarkupSegmentParser.cpp lines 287-303): newline,
flush, conditional pop and style refresh, then the unconditional link-state
reset.  Note the refresh happens before the reset, so the cached
currentLink and currentLinkUrl flags are not recomputed afterwards. -/
def blockCloseStep (cleanTag : Bytes) (st : ParseState) : ParseState :=
  let st := flushSegment false (appendText [10] st)
  let st :=
    if st.tagStack.head? == some cleanTag then
      updateStyleFromStack (exitDir cleanTag (popTag st))
    else st
  { st with linkDepth := 0, linkUrlStack := [] }

/-- The dir-attribute handling of a block open (MarkupSegmentParser.cpp
lines 309-322): extract dir=, look ahead when it says auto, and enter the
element. -/
def enterDirBlock (cleanTag rest : Bytes) (st : ParseState) : ParseState :=
  let dirAttr := extractDirAttr st.tagName
  let textForDetection :=
    if !dirAttr.isEmpty && dirAttr.map toLowerB == bytesOf "auto" then
      extractTextForAutoDetection cleanTag rest
    else []
  { st with dirContext := enterElement cleanTag dirAttr textForDetection st.dirContext }

/-- Block-open branch (MarkupSegmentParser.cpp lines 304-323).  `rest` is
the input suffix after the closing angle bracket, used for the dir=auto
look-ahead. -/
def blockOpenStep (cleanTag rest : Bytes) (st : ParseState) : ParseState :=
  updateStyleFromStack
    (enterDirBlock cleanTag rest (pushTag cleanTag (flushSegment false st)))

/-- Link tracking on an a-tag open (MarkupSegmentParser.cpp lines 327-334):
when the raw tag body yields a nonempty, allowed href value, bump the link
depth and push the URL. -/
def tryPushLink (cleanTag : Bytes) (st : ParseState) : ParseState :=
  if cleanTag == bytesOf "a" then
    let url := extractHrefUrl st.tagName
    if !url.isEmpty then
      { st with linkDepth := st.linkDepth + 1, linkUrlStack := url :: st.linkUrlStack }
    else st
  else st

/-- The dir-attribute handling of an inline open (MarkupSegmentParser.cpp
lines 335-353): dir=auto, or a bare bdi, trigger the look-ahead. -/
def enterDirInline (cleanTag rest : Bytes) (st : ParseState) : ParseState :=
  let dirAttr := extractDirAttr st.tagName
  let needsAutoDetection :=
    if !dirAttr.isEmpty then dirAttr.map toLowerB == bytesOf "auto"
    else cleanTag == bytesOf "bdi"
  let textForDetection :=
    if needsAutoDetection then extractTextForAutoDetection cleanTag rest else []
  { st with dirContext := enterElement cleanTag dirAttr textForDetection st.dirContext }

/-- BiDi control characters emitted on bdi/bdo open
(MarkupSegmentParser.cpp lines 355-374): FSI for bdi; RLO or LRO for bdo
with an explicit direction. -/
def bdiBdoOpenMark (cleanTag : Bytes) (st : ParseState) : ParseState :=
  if cleanTag == bytesOf "bdi" then appendText [226, 129, 168] st
  else if cleanTag == bytesOf "bdo" then
    let lowerDir := (extractDirAttr st.tagName).map toLowerB
    if lowerDir == bytesOf "rtl" then appendText [226, 128, 174] st
    else if lowerDir == bytesOf "ltr" then appendText [226, 128, 173] st
    else st
  else st

/-- Inline-open branch (MarkupSegmentParser.cpp lines 324-376): flush,
push, link tracking, direction entry, BiDi control character, style
refresh, in source order. -/
def inlineOpenStep (cleanTag rest : Bytes) (st : ParseState) : ParseState :=
  updateStyleFromStack
    (bdiBdoOpenMark cleanTag
      (enterDirInline cleanTag rest
        (tryPushLink cleanTag (pushTag cleanTag (flushSegment false st)))))

/-- BiDi control characters emitted on bdi/bdo close
(MarkupSegmentParser.cpp lines 378-387): PDI for bdi, PDF for bdo. -/
def bdiBdoCloseMark (cleanTag : Bytes) (st : ParseState) : ParseState :=
  if cleanTag == bytesOf "bdi" then appendText [226, 129, 169] st
  else if cleanTag == bytesOf "bdo" then appendText [226, 128, 172] st
  else st

/-- Link-stack pop on a matched a-tag close (MarkupSegmentParser.cpp
lines 391-397). -/
def popLink (cleanTag : Bytes) (st : ParseState) : ParseState :=
  if cleanTag == bytesOf "a" && decide (st.linkDepth > 0) then
    { st with linkDepth := st.linkDepth - 1, linkUrlStack := st.linkUrlStack.tail }
  else st

/-- Inline-close branch (MarkupSegmentParser.cpp lines 377-401). -/
def inlineCloseStep (cleanTag : Bytes) (st : ParseState) : ParseState :=
  let st := flushSegment true (bdiBdoCloseMark cleanTag st)
  if st.tagStack.head? == some cleanTag then
    updateStyleFromStack (exitDir cleanTag (popLink cleanTag (popTag st)))
  else st

/-- Indent level for a list item in parseMarkupToSegments
(MarkupSegmentParser.cpp lines 409-413): stack size minus one, capped
at 100. -/
def liIndentLevel (stackSize : Nat) : Nat :=
  let lvl := stackSize - 1
  if lvl > 100 then 100 else lvl

/-- The conditional newline before a list marker
(MarkupSegmentParser.cpp lines 403-405). -/
def liNewline (st : ParseState) : ParseState :=
  if !st.currentText.isEmpty && !(st.currentText.getLast? == some 10) then
    appendText [10] st
  else st

/-- li-open branch (MarkupSegmentParser.cpp lines 402-424). -/
def liOpenStep (st : ParseState) : ParseState :=
  let st := liNewline st
  match st.listStack with
  | [] => appendText bulletMarker st
  | ctx :: restL =>
    let ctr := ctx.itemCounter + 1
    let indentLevel := liIndentLevel st.listStack.length
    let st' :=
      if indentLevel > 0 then appendText (List.replicate (indentLevel * 4) 32) st
      else st
    let marker :=
      if ctx.type == FabricRichListType.Ordered then decDigits ctr ++ [46, 32]
      else bulletMarker
    { appendText marker st' with listStack := { ctx with itemCounter := ctr } :: restL }

/-- Sentence-terminator set used for the li-close screen-reader pause and
the accessibility label. -/
def isTermB (b : Nat) : Bool :=
  b == 46 || b == 33 || b == 63 || b == 58 || b == 59

/-- li-close branch (MarkupSegmentParser.cpp lines 425-432). -/
def liCloseStep (st : ParseState) : ParseState :=
  match st.currentText.getLast? with
  | none => st
  | some lastChar =>
    if !isTermB lastChar then appendText [46] st else st

/-- ul-open branch (MarkupSegmentParser.cpp lines 433-435). -/
def ulOpenStep (st : ParseState) : ParseState :=
  { st with
    listStack :=
      ⟨FabricRichListType.Unordered, 0, st.listStack.length + 1⟩ :: st.listStack }

/-- ol-open branch (MarkupSegmentParser.cpp lines 436-438). -/
def olOpenStep (st : ParseState) : ParseState :=
  { st with
    listStack :=
      ⟨FabricRichListType.Ordered, 0, st.listStack.length + 1⟩ :: st.listStack }

/-- ul/ol-close branch (MarkupSegmentParser.cpp lines 439-447). -/
def ulolCloseStep (st : ParseState) : ParseState :=
  let st := { st with listStack := st.listStack.tail }
  if st.listStack.isEmpty then flushSegment false (appendText [10] st)
  else st

/-- The dispatch chain on a parsed tag (MarkupSegmentParser.cpp
lines 281-447), with the closing flag and clean tag precomputed.  `rest`
is the input suffix after the closing angle bracket. -/
def tagDispatch (isClosing : Bool) (cleanTag rest : Bytes) (st0 : ParseState) :
    ParseState :=
  if cleanTag == bytesOf "script" then { st0 with inScript := !isClosing }
  else if cleanTag == bytesOf "style" then { st0 with inStyle := !isClosing }
  else if cleanTag == bytesOf "br" then appendText [10] st0
  else if isClosing && isBlockPDH cleanTag then blockCloseStep cleanTag st0
  else if !isClosing && isBlockPDH cleanTag then blockOpenStep cleanTag rest st0
  else if !isClosing && isInlineFormattingTag cleanTag then
    inlineOpenStep cleanTag rest st0
  else if isClosing && isInlineFormattingTag cleanTag then
    inlineCloseStep cleanTag st0
  else if !isClosing && cleanTag == bytesOf "li" then liOpenStep st0
  else if isClosing && cleanTag == bytesOf "li" then liCloseStep st0
  else if !isClosing && cleanTag == bytesOf "ul" then ulOpenStep st0
  else if !isClosing && cleanTag == bytesOf "ol" then olOpenStep st0
  else if isClosing && (cleanTag == bytesOf "ul" || cleanTag == bytesOf "ol") then
    ulolCloseStep st0
  else st0

/-- Tag dispatch on a closing angle bracket (MarkupSegmentParser.cpp
lines 264-450): lowercase the buffered tag body, cut it at the first
space, strip a leading slash, dispatch, and clear the buffer.  `rest` is
the input suffix after this character. -/
def handleTag (rest : Bytes) (st : ParseState) : ParseState :=
  let lowerTag := (st.tagName.map toLowerB).takeWhile (fun b => !(b == 32))
  let isClosing := lowerTag.head? == some 47
  let cleanTag := if isClosing then lowerTag.tail else lowerTag
  { tagDispatch isClosing cleanTag rest { st with inTag := false } with
    tagName := [] }

/-- One iteration of the top-level byte loop (MarkupSegmentParser.cpp
lines 255-461).  `rest` is the input suffix after the current byte. -/
def parseStep (c : Nat) (rest : Bytes) (st : ParseState) : ParseState :=
  if c == 60 then { st with inTag := true, tagName := [] }
  else if c == 62 then handleTag rest st
  else if st.inTag then { st with tagName := st.tagName ++ [c] }
  else if !st.inScript && !st.inStyle then
    { st with currentText := st.currentText ++ [c] }
  else st

/-- The top-level byte loop. -/
def parseLoop : Bytes → ParseState → ParseState
  | [], st => st
  | c :: rest, st => parseLoop rest (parseStep c rest st)

/-- parseMarkupToSegments (MarkupSegmentParser.cpp lines 166-466). -/
def parseMarkupToSegments (markup : Bytes) : List FabricRichTextSegment :=
  if markup.isEmpty then []
  else (flushSegment false (parseLoop markup initState)).segments

/-- extractLinkUrlsFromSegments (MarkupSegmentParser.cpp lines 25-33). -/
def extractLinkUrlsFromSegments (segments : List FabricRichTextSegment) : List Bytes :=
  segments.map (fun s => s.linkUrl)

/-! ## AttributedStringBuilder.cpp -/

/-- List-marker test of buildAccessibilityLabel
(AttributedStringBuilder.cpp lines 25-32): the bytes after a newline begin
an ASCII digit, or the full three-byte UTF-8 bullet E2 80 A2 is present. -/
def markerStartsB (rest : Bytes) : Bool :=
  (match rest with | d :: _ => isDigitB d | [] => false) ||
  (match rest with
   | b1 :: b2 :: b3 :: _ => b1 == 226 && b2 == 128 && b3 == 162
   | _ => false)

/-- Accumulator loop of buildAccessibilityLabel
(AttributedStringBuilder.cpp lines 17-47): before appending a newline that
precedes a list marker, a period is inserted when the label is nonempty and
its last byte is not a sentence terminator. -/
def a11yGo (acc : Bytes) : Bytes → Bytes
  | [] => acc
  | c :: rest =>
    let acc' :=
      if c == 10 && markerStartsB rest &&
          (match acc.getLast? with
           | none => false
           | some lastChar => !isTermB lastChar) then
        acc ++ [46]
      else acc
    a11yGo (acc' ++ [c]) rest

/-- buildAccessibilityLabel (AttributedStringBuilder.cpp lines 17-47). -/
def buildAccessibilityLabel (plainText : Bytes) : Bytes :=
  a11yGo [] plainText

/-- The outputs of buildAttributedString that the verified claims are
about: the fragment texts in order, the parallel link-URL array, and the
accessibility label.  The per-fragment TextAttributes of the C++ function
(fontSize, lineHeight, weight, style, decoration, letterSpacing, family,
color) are pure styling computed from the builder parameters; they do not
influence these three outputs and are not modelled. -/
structure AttributedStringResult where
  fragments : List Bytes
  linkUrls : List Bytes
  accessibilityLabel : Bytes
deriving DecidableEq, Repr

/-- Right trim of trailing paragraph-break segments
(AttributedStringBuilder.cpp lines 72-80). -/
def trimTrailingBreaks (segments : List FabricRichTextSegment) :
    List FabricRichTextSegment :=
  ((segments.reverse).dropWhile (fun s => isParagraphBreak s.text)).reverse

/-- Fragment-emission loop of buildAttributedString
(AttributedStringBuilder.cpp lines 96-231): normalize each segment text
(preserving only newlines for paragraph breaks, preserving the leading
space after an inline close), right-trim the last segment, skip empty
results, and push the fragment text together with its parallel link URL. -/
def emitSegs : List FabricRichTextSegment → List Bytes × List Bytes
  | [] => ([], [])
  | [seg] =>
    let n := rtrimWs
      (normalizeSegmentText seg.text (isParagraphBreak seg.text) seg.followsInlineElement)
    if n.isEmpty then ([], []) else ([n], [seg.linkUrl])
  | seg :: seg2 :: restSegs =>
    let n := normalizeSegmentText seg.text (isParagraphBreak seg.text)
      seg.followsInlineElement
    let p := emitSegs (seg2 :: restSegs)
    if n.isEmpty then p else (n :: p.1, seg.linkUrl :: p.2)

/-- buildAttributedString (AttributedStringBuilder.cpp lines 49-243),
restricted to the three outputs of AttributedStringResult. -/
def buildAttributedString (segments : List FabricRichTextSegment) :
    AttributedStringResult :=
  if segments.isEmpty then ⟨[], [], []⟩
  else
    let workingSegments := trimTrailingBreaks segments
    if workingSegments.isEmpty then ⟨[], [], []⟩
    else
      let p := emitSegs workingSegments
      ⟨p.1, p.2, buildAccessibilityLabel p.1.flatten⟩

/-! ## FabricMarkupParser.cpp facade -/

/-- FabricMarkupParser::parseMarkupWithLinkUrls (FabricMarkupParser.cpp
lines 32-72): empty input short-circuits, otherwise normalize inter-tag
whitespace, parse to segments, and build the attributed result.  The
builder parameters (font sizes, weights, colors, tagStyles) only shape the
unmodelled styling attributes. -/
def parseMarkupWithLinkUrls (markup : Bytes) : AttributedStringResult :=
  if markup.isEmpty then ⟨[], [], []⟩
  else
    let normalizedMarkup := normalizeInterTagWhitespace markup
    let segments := parseMarkupToSegments normalizedMarkup
    if segments.isEmpty then ⟨[], [], []⟩
    else buildAttributedString segments

/-! ## Specification-side definitions

These definitions follow the words of the specification and of the claims,
for comparison against the embedded code. -/

/-- Modelled from the claim C2 wording: after lowercasing and left-trimming
the whitespace set of the code, accept exactly URLs starting with http://,
https://, mailto:, tel:, a hash, a slash, and strings with no colon or
whose first colon occurs after the first slash. -/
def isAllowedUrlSchemeSpec (url : Bytes) : Bool :=
  let u := (url.map toLowerB).dropWhile urlTrimWs
  (bytesOf "http://").isPrefixOf u || (bytesOf "https://").isPrefixOf u ||
  (bytesOf "mailto:").isPrefixOf u || (bytesOf "tel:").isPrefixOf u ||
  u.head? == some 35 || u.head? == some 47 ||
  (match firstIdxB (· == 58) u, firstIdxB (· == 47) u with
   | none, _ => true
   | some colonPos, some slashPos => decide (slashPos < colonPos)
   | some _, none => false)

/-- Modelled from the claim C7 wording: insert a period before each newline
that precedes a list marker, unless the preceding NON-WHITESPACE character
of the label built so far is already a sentence terminator (or there is
none). -/
def claimC7Go (acc : Bytes) : Bytes → Bytes
  | [] => acc
  | c :: rest =>
    let acc' :=
      if c == 10 && markerStartsB rest &&
          (match (acc.reverse.dropWhile cIsSpace).head? with
           | none => false
           | some lastNonWs => !isTermB lastNonWs) then
        acc ++ [46]
      else acc
    claimC7Go (acc' ++ [c]) rest

/-- The insertion rule of claim C7, read as a transformation of the plain
text, with the guard on the preceding non-whitespace character as the claim
states it. -/
def claimC7LabelRule (plainText : Bytes) : Bytes :=
  claimC7Go [] plainText

/-- Output-level check of the amended C7 property: every newline that
precedes a list marker is at the start of the label or immediately preceded
by a sentence terminator.  The first argument is the previously scanned
byte, if any. -/
def checkLabel (prev : Option Nat) : Bytes → Bool
  | [] => true
  | c :: rest =>
    (if c == 10 && markerStartsB rest then
      match prev with
      | none => true
      | some p => isTermB p
    else true) && checkLabel (some c) rest

/-- Number of true entries of a Bool stack. -/
def countTrue (l : List Bool) : Nat := (l.filter (fun b => b)).length

/-- Invariant of the DirectionContext state machine: the three stacks have
equal lengths and each depth counter equals the number of true entries of
its stack. -/
def DirInv (st : DirectionContext) : Prop :=
  st.directionStack.length = st.isBdiStack.length ∧
  st.directionStack.length = st.isBdoStack.length ∧
  st.isolationDepth = (countTrue st.isBdiStack : Int) ∧
  st.overrideDepth = (countTrue st.isBdoStack : Int)

/-- A URL is empty or passes the scheme allowlist. -/
abbrev goodUrl (u : Bytes) : Prop := u = [] ∨ isAllowedUrlScheme u = true

/-- A byte string free of angle-bracket bytes. -/
abbrev noAngle (l : Bytes) : Prop := ∀ b ∈ l, b ≠ 60 ∧ b ≠ 62

/-- A parentTag value reachable in the parser: empty or an inline
formatting tag. -/
abbrev goodParent (t : Bytes) : Prop := t = [] ∨ isInlineFormattingTag t = true

/-- Invariant of an emitted segment. -/
def SegOk (s : FabricRichTextSegment) : Prop :=
  goodUrl s.linkUrl ∧ noAngle s.text ∧ goodParent s.parentTag

/-- Invariant of the parser state: every stacked link URL is nonempty and
allowed, the cached current link URL is empty or allowed, the text buffer
and every emitted segment are free of angle brackets, and parent tags are
empty or inline. -/
def StOk (st : ParseState) : Prop :=
  (∀ u ∈ st.linkUrlStack, u ≠ [] ∧ isAllowedUrlScheme u = true) ∧
  goodUrl st.currentLinkUrl ∧
  noAngle st.currentText ∧
  goodParent st.currentParentTag ∧
  (∀ s ∈ st.segments, SegOk s)

/-- Direct (non-accumulator) form of the buildAccessibilityLabel loop,
parameterized by the previously emitted byte; used to relate the code's
accumulator recursion to the output-level property of claim C7. -/
def a11yEmit (prev : Option Nat) : Bytes → Bytes
  | [] => []
  | c :: rest =>
    if c == 10 && markerStartsB rest &&
        (match prev with | none => false | some p => !isTermB p) then
      46 :: 10 :: a11yEmit (some 10) rest
    else c :: a11yEmit (some c) rest

/-! ## Theorems -/

/-! ### Idempotence of normalizeInterTagWhitespace (claim C8) -/

theorem normAux_neutral_cons (lct : Bytes) (c : Nat) (rest : Bytes) :
    normAux false false lct (c :: rest) =
      if c == 60 then 60 :: normAux false false (interTagScanTag rest) rest
      else if c == 62 then
        62 :: normAux false (!(lct == []) && isBlockLevelTag lct) lct rest
      else c :: normAux false false lct rest := by
  simp [normAux]

theorem normAux_takeWhile_pres (lct : Bytes) (r : Bytes) :
    (normAux false false lct r).takeWhile tagNameChar = r.takeWhile tagNameChar := by
  induction r generalizing lct with
  | nil => simp [normAux]
  | cons c rest ih =>
    by_cases h60 : c == 60
    · have hc : c = 60 := by simpa using h60
      subst hc
      have e : normAux false false lct (60 :: rest) =
          60 :: normAux false false (interTagScanTag rest) rest := by
        simp [normAux]
      rw [e, List.takeWhile_cons, List.takeWhile_cons]
      have hp : tagNameChar 60 = true := by decide
      simp [hp, ih]
    · by_cases h62 : c == 62
      · have hc : c = 62 := by simpa using h62
        subst hc
        have e : normAux false false lct (62 :: rest) =
            62 :: normAux false (!(lct == []) && isBlockLevelTag lct) lct rest := by
          simp [normAux]
        rw [e, List.takeWhile_cons, List.takeWhile_cons]
        have hp : tagNameChar 62 = false := by decide
        simp [hp]
      · have e : normAux false false lct (c :: rest) =
            c :: normAux false false lct rest := by
          simp [normAux, h60, h62]
        rw [e, List.takeWhile_cons, List.takeWhile_cons]
        by_cases hp : tagNameChar c
        · simp [hp, ih]
        · simp [eq_false_of_ne_true hp]

theorem normAux_scan_pres (lct : Bytes) (r : Bytes) :
    interTagScanTag (normAux false false lct r) = interTagScanTag r := by
  cases r with
  | nil => simp [normAux]
  | cons c rest =>
    by_cases h60 : c == 60
    · have hc : c = 60 := by simpa using h60
      subst hc
      have e : normAux false false lct (60 :: rest) =
          60 :: normAux false false (interTagScanTag rest) rest := by
        simp [normAux]
      rw [e]
      simp [interTagScanTag]
    · by_cases h62 : c == 62
      · have hc : c = 62 := by simpa using h62
        subst hc
        have e : normAux false false lct (62 :: rest) =
            62 :: normAux false (!(lct == []) && isBlockLevelTag lct) lct rest := by
          simp [normAux]
        rw [e]
        simp [interTagScanTag]
      · have e : normAux false false lct (c :: rest) =
            c :: normAux false false lct rest := by
          simp [normAux, h60, h62]
        rw [e]
        simp only [interTagScanTag]
        by_cases h47 : c == 47
        · simp [h47, normAux_takeWhile_pres]
        · simp [h47]

theorem normAux_idem (r : Bytes) :
    ∀ (bft abc : Bool) (lct : Bytes),
      normAux bft abc lct (normAux bft abc lct r) = normAux bft abc lct r := by
  induction r with
  | nil => intro bft abc lct; simp [normAux]
  | cons c rest ih =>
    intro bft abc lct
    by_cases h1 : (bft && cIsSpace c) = true
    · have hinner : normAux bft abc lct (c :: rest) = normAux bft abc lct rest := by
        simp [normAux, h1]
      rw [hinner, ih]
    · by_cases h60 : c == 60
      · have hc : c = 60 := by simpa using h60
        subst hc
        have hinner : normAux bft abc lct (60 :: rest) =
            60 :: normAux false false (interTagScanTag rest) rest := by
          simp [normAux, h1]
        rw [hinner]
        have houter : normAux bft abc lct
            (60 :: normAux false false (interTagScanTag rest) rest) =
            60 :: normAux false false
              (interTagScanTag (normAux false false (interTagScanTag rest) rest))
              (normAux false false (interTagScanTag rest) rest) := by
          simp [normAux, h1]
        rw [houter, normAux_scan_pres, ih]
      · by_cases h62 : c == 62
        · have hc : c = 62 := by simpa using h62
          subst hc
          have hinner : normAux bft abc lct (62 :: rest) =
              62 :: normAux bft (!(lct == []) && isBlockLevelTag lct) lct rest := by
            simp [normAux, h1]
          rw [hinner]
          have houter : normAux bft abc lct
              (62 :: normAux bft (!(lct == []) && isBlockLevelTag lct) lct rest) =
              62 :: normAux bft (!(lct == []) && isBlockLevelTag lct) lct
                (normAux bft (!(lct == []) && isBlockLevelTag lct) lct rest) := by
            simp [normAux, h1]
          rw [houter, ih]
        · by_cases h4 : (abc && cIsSpace c) = true
          · have hinner : normAux bft abc lct (c :: rest) = normAux bft abc lct rest := by
              simp [normAux, h1, h60, h62, h4]
            rw [hinner, ih]
          · have hinner : normAux bft abc lct (c :: rest) =
                c :: normAux false false lct rest := by
              simp [normAux, h1, h60, h62, h4]
            rw [hinner]
            have houter : normAux bft abc lct (c :: normAux false false lct rest) =
                c :: normAux false false lct (normAux false false lct rest) := by
              simp [normAux, h1, h60, h62, h4]
            rw [houter, ih]

/-- C8: normalizeInterTagWhitespace is idempotent: applying it twice equals
applying it once, for every input string. -/
theorem claimC8_normalize_idempotent (s : Bytes) :
    normalizeInterTagWhitespace (normalizeInterTagWhitespace s) =
      normalizeInterTagWhitespace s :=
  normAux_idem s true false []

/-! ### DirectionContext stack balance (claim C10) -/

theorem dirInv_enter (tag dirAttr textContent : Bytes) (st : DirectionContext)
    (h : DirInv st) : DirInv (enterElement tag dirAttr textContent st) := by
  obtain ⟨h1, h2, h3, h4⟩ := h
  unfold enterElement
  split_ifs <;>
    simp_all [DirInv, countTrue, List.filter] <;>
    split_ifs <;>
    simp_all

theorem exitElement_cons (tag : Bytes) (bd cd d : WritingDirection)
    (iso ovr : Int) (r : List WritingDirection) (b b2 : Bool) (r1 r2 : List Bool) :
    exitElement tag ⟨bd, cd, iso, ovr, d :: r, b :: r1, b2 :: r2⟩ =
      ⟨bd, d, if b then iso - 1 else iso, if b2 then ovr - 1 else ovr, r, r1, r2⟩ := by
  simp [exitElement]

theorem dirInv_exit (tag : Bytes) (st : DirectionContext)
    (h : DirInv st) : DirInv (exitElement tag st) := by
  obtain ⟨bd, cd, iso, ovr, ds, bs, bos⟩ := st
  obtain ⟨h1, h2, h3, h4⟩ := h
  simp only [DirInv] at h1 h2 h3 h4
  cases ds with
  | nil =>
    have : exitElement tag ⟨bd, cd, iso, ovr, [], bs, bos⟩ =
        ⟨bd, cd, iso, ovr, [], bs, bos⟩ := by
      simp [exitElement]
    rw [this]
    exact ⟨h1, h2, h3, h4⟩
  | cons d r =>
    cases bs with
    | nil => simp at h1
    | cons b r1 =>
      cases bos with
      | nil => simp at h2
      | cons b2 r2 =>
        rw [exitElement_cons]
        refine ⟨by simpa using h1, by simpa using h2, ?_, ?_⟩
        · cases b <;> simp_all [countTrue]
        · cases b2 <;> simp_all [countTrue]

theorem dirInv_ops (ops : List DirOp) (st : DirectionContext) (h : DirInv st) :
    DirInv (applyDirOps ops st) := by
  induction ops generalizing st with
  | nil => exact h
  | cons op rest ih =>
    cases op with
    | enterOp tag dirAttr textContent =>
      exact ih _ (dirInv_enter tag dirAttr textContent st h)
    | exitOp tag => exact ih _ (dirInv_exit tag st h)

/-- C10: starting from the initial DirectionContext, any sequence of
enterElement and exitElement calls leaves the three stacks with equal
lengths, each depth counter equal to the number of true entries of its
stack, and both depth counters non-negative. -/
theorem claimC10_direction_context_invariant (ops : List DirOp) :
    (applyDirOps ops {}).directionStack.length =
      (applyDirOps ops {}).isBdiStack.length ∧
    (applyDirOps ops {}).directionStack.length =
      (applyDirOps ops {}).isBdoStack.length ∧
    (applyDirOps ops {}).isolationDepth =
      (countTrue (applyDirOps ops {}).isBdiStack : Int) ∧
    (applyDirOps ops {}).overrideDepth =
      (countTrue (applyDirOps ops {}).isBdoStack : Int) ∧
    0 ≤ (applyDirOps ops {}).isolationDepth ∧
    0 ≤ (applyDirOps ops {}).overrideDepth := by
  have h : DirInv (applyDirOps ops {}) := by
    apply dirInv_ops
    exact ⟨rfl, rfl, rfl, rfl⟩
  obtain ⟨h1, h2, h3, h4⟩ := h
  refine ⟨h1, h2, h3, h4, ?_, ?_⟩
  · rw [h3]; exact Int.natCast_nonneg _
  · rw [h4]; exact Int.natCast_nonneg _

/-! ### parseHexColor (claim C6) -/

theorem takeWhile_all_true {p : Nat → Bool} :
    ∀ l : Bytes, (∀ b ∈ l, p b = true) → l.takeWhile p = l := by
  intro l
  induction l with
  | nil => intro _; rfl
  | cons c rest ih =>
    intro h
    have hc : p c = true := h c (by simp)
    rw [List.takeWhile_cons]
    simp only [hc, if_true]
    rw [ih (fun b hb => h b (by simp [hb]))]

theorem hexDigit_facts {b : Nat} (h : isHexDigitB b = true) :
    cIsSpace b = false ∧ b ≠ 43 ∧ b ≠ 45 ∧ b ≠ 120 ∧ b ≠ 88 ∧ hexDigitVal b ≤ 15 := by
  have hr : ((48 ≤ b ∧ b ≤ 57) ∨ (97 ≤ b ∧ b ≤ 102)) ∨ (65 ≤ b ∧ b ≤ 70) := by
    simpa [isHexDigitB, Bool.or_eq_true, Bool.and_eq_true, decide_eq_true_eq] using h
  have hsp : cIsSpace b = false := by
    simp only [cIsSpace, Bool.or_eq_false_iff, beq_eq_false_iff_ne, ne_eq]
    omega
  have hval : hexDigitVal b ≤ 15 := by
    unfold hexDigitVal
    split_ifs <;> omega
  exact ⟨hsp, by omega, by omega, by omega, by omega, hval⟩

theorem hexValOf_bound :
    ∀ (l : Bytes) (acc : Nat), (∀ b ∈ l, isHexDigitB b = true) →
      l.foldl (fun a d => 16 * a + hexDigitVal d) acc < 16 ^ l.length * (acc + 1) := by
  intro l
  induction l with
  | nil => intro acc _; simp
  | cons d t ih =>
    intro acc h
    have hd := (hexDigit_facts (h d (by simp))).2.2.2.2.2
    have ht := ih (16 * acc + hexDigitVal d) (fun b hb => h b (by simp [hb]))
    calc List.foldl (fun a d => 16 * a + hexDigitVal d) acc (d :: t)
        = List.foldl (fun a d => 16 * a + hexDigitVal d) (16 * acc + hexDigitVal d) t := by
          simp
      _ < 16 ^ t.length * (16 * acc + hexDigitVal d + 1) := ht
      _ ≤ 16 ^ t.length * (16 * (acc + 1)) := by
          apply Nat.mul_le_mul_left
          omega
      _ = 16 ^ (d :: t).length * (acc + 1) := by
          simp [List.length_cons, Nat.pow_succ]
          ring

theorem stoulHex_all_hex (l : Bytes) (hne : l ≠ [])
    (h : ∀ b ∈ l, isHexDigitB b = true) (hlen : l.length ≤ 16) :
    stoulHex l = some (hexValOf l) := by
  obtain ⟨c, rest, rfl⟩ := List.exists_cons_of_ne_nil hne
  have hc := hexDigit_facts (h c (by simp))
  have hdrop : (c :: rest).dropWhile cIsSpace = c :: rest := by
    rw [List.dropWhile_cons]
    simp [hc.1]
  have hbound : hexValOf (c :: rest) < 16 ^ (c :: rest).length * 1 := by
    simpa [hexValOf] using hexValOf_bound (c :: rest) 0 h
  have hpow : (16 : Nat) ^ (c :: rest).length ≤ 16 ^ 16 :=
    Nat.pow_le_pow_right (by omega) hlen
  have hne43 : ((c :: rest).head? == some 43) = false := by
    simp [hc.2.1]
  have hne45 : ((c :: rest).head? == some 45) = false := by
    simp [hc.2.2.1]
  have hox : (((c :: rest).head? == some 48) &&
      (((c :: rest).tail.head? == some 120) || ((c :: rest).tail.head? == some 88)) &&
      (match ((c :: rest).drop 2).head? with
       | some d => isHexDigitB d
       | none => false)) = false := by
    cases rest with
    | nil => simp
    | cons c2 rest2 =>
      have hc2 := hexDigit_facts (h c2 (by simp))
      simp [hc2.2.2.2.1, hc2.2.2.2.2.1]
  have htw := takeWhile_all_true (c :: rest) h
  have hv : ¬(hexValOf (c :: rest) > 2 ^ 64 - 1) := by
    have h16 : (16 : Nat) ^ 16 = 2 ^ 64 := by norm_num
    omega
  simp only [stoulHex, hdrop, hne43, hne45, Bool.or_self, Bool.or_false,
    Bool.false_or, Bool.false_eq_true, if_false, hox, htw]
  rw [if_neg (by simp : ¬((c :: rest) = [])), if_neg hv]

/-- C6 counterexample: the claim states that parseHexColor returns 0 on any
parse failure, in particular when the six characters after the hash do not
all parse as hexadecimal; but on "#12g456" (g is not a hex digit) the code
returns 0xFF000012, because std::stoul parses the maximal hex prefix "12". -/
theorem claimC6_counterexample :
    parseHexColor (bytesOf "#12g456") = 0xFF000012 ∧
    isHexDigitB 103 = false ∧ (0xFF000012 : Nat) ≠ 0 := by
  refine ⟨by decide, by decide, by decide⟩

theorem parseHexColor_six (l : Bytes) (hl : l.length = 6)
    (h : ∀ d ∈ l, isHexDigitB d = true) :
    parseHexColor (35 :: l) = 0xFF000000 ||| hexValOf l := by
  rcases l with _ | ⟨d1, _ | ⟨d2, _ | ⟨d3, _ | ⟨d4, _ | ⟨d5, _ | ⟨d6, t⟩⟩⟩⟩⟩⟩ <;>
    simp only [List.length_cons, List.length_nil] at hl <;> try omega
  have ht : t = [] := by
    cases t with
    | nil => rfl
    | cons a t2 => exfalso; simp only [List.length_cons] at hl; omega
  subst ht
  have hs := stoulHex_all_hex [d1, d2, d3, d4, d5, d6] (by simp) h (by simp)
  have hb : hexValOf [d1, d2, d3, d4, d5, d6] < 16 ^ 6 := by
    have hb0 := hexValOf_bound [d1, d2, d3, d4, d5, d6] 0 h
    rw [show ([d1, d2, d3, d4, d5, d6] : Bytes).length = 6 from rfl] at hb0
    rw [Nat.zero_add, Nat.mul_one] at hb0
    exact hb0
  have hnb : ¬(hexValOf [d1, d2, d3, d4, d5, d6] > 0xFFFFFF) := by
    have h16 : (16 : Nat) ^ 6 = 0x1000000 := by norm_num
    omega
  have e : parseHexColor (35 :: [d1, d2, d3, d4, d5, d6]) =
      (match stoulHex [d1, d2, d3, d4, d5, d6] with
       | none => 0
       | some rgb => if rgb > 0xFFFFFF then 0 else 0xFF000000 ||| rgb) := rfl
  rw [e, hs]
  exact if_neg hnb

/-- C6 as amended: parseHexColor returns the full-alpha ARGB value when the
input is a hash followed by exactly three or exactly six hexadecimal digits
(the three-digit form expanded by doubling each digit), and every input on
which it returns a nonzero value is a hash followed by exactly three or six
characters; for other character contents the value parsed is the one given
by the std::stoul prefix semantics (maximal hex-digit run after optional
whitespace, sign and 0x prefix), as the counterexample shows. -/
theorem claimC6_parse_hex_color :
    (∀ a b c : Nat, isHexDigitB a = true → isHexDigitB b = true →
      isHexDigitB c = true →
      parseHexColor (35 :: [a, b, c]) = 0xFF000000 ||| hexValOf [a, a, b, b, c, c]) ∧
    (∀ l : Bytes, l.length = 6 → (∀ d ∈ l, isHexDigitB d = true) →
      parseHexColor (35 :: l) = 0xFF000000 ||| hexValOf l) ∧
    (∀ l : Bytes, parseHexColor l ≠ 0 →
      ∃ t, l = 35 :: t ∧ (t.length = 3 ∨ t.length = 6)) := by
  refine ⟨?_, parseHexColor_six, ?_⟩
  · intro a b c ha hb hc
    have hall : ∀ d ∈ [a, a, b, b, c, c], isHexDigitB d = true := by
      intro d hd
      simp only [List.mem_cons, List.not_mem_nil, or_false] at hd
      rcases hd with rfl | rfl | rfl | rfl | rfl | rfl <;> assumption
    have := parseHexColor_six [a, a, b, b, c, c] (by simp) hall
    calc parseHexColor (35 :: [a, b, c])
        = parseHexColor (35 :: [a, a, b, b, c, c]) := rfl
      _ = 0xFF000000 ||| hexValOf [a, a, b, b, c, c] := this
  · intro l hl
    rcases l with _ | ⟨c0, t⟩
    · simp [parseHexColor] at hl
    · by_cases h35 : c0 == 35
      · have hc0 : c0 = 35 := by simpa using h35
        subst hc0
        refine ⟨t, rfl, ?_⟩
        by_cases h3 : t.length = 3
        · exact Or.inl h3
        · right
          by_contra h6
          apply hl
          rcases t with _ | ⟨a, _ | ⟨b, _ | ⟨c, _ | ⟨d, t4⟩⟩⟩⟩
          · simp [parseHexColor]
          · simp [parseHexColor]
          · simp [parseHexColor]
          · simp at h3
          · have hlen : (a :: b :: c :: d :: t4).length ≠ 6 := by
              simpa using h6
            have e2 : parseHexColor (35 :: (a :: b :: c :: d :: t4)) =
                if (a :: b :: c :: d :: t4).length ≠ 6 then 0
                else
                  match stoulHex (a :: b :: c :: d :: t4) with
                  | none => 0
                  | some rgb => if rgb > 0xFFFFFF then 0 else 0xFF000000 ||| rgb := rfl
            rw [e2, if_pos hlen]
      · simp [parseHexColor, h35] at hl

/-- C6 witness: the amended theorem applied to the concrete short-form
input "#abc". -/
theorem claimC6_witness :
    isHexDigitB 97 = true ∧
    parseHexColor (35 :: [97, 98, 99]) = 0xFF000000 ||| hexValOf [97, 97, 98, 98, 99, 99] :=
  ⟨by decide, claimC6_parse_hex_color.1 97 98 99 (by decide) (by decide) (by decide)⟩

/-! ### Parser state invariant (claims C2, C4, C9) -/

theorem decDigitsGo_digits (fuel : Nat) :
    ∀ (n : Nat), ∀ b ∈ decDigitsGo fuel n, 48 ≤ b ∧ b ≤ 57 := by
  induction fuel with
  | zero => intro n b hb; simp [decDigitsGo] at hb
  | succ fuel ih =>
    intro n b hb
    rw [decDigitsGo] at hb
    split_ifs at hb with h
    · simp only [List.mem_singleton] at hb
      omega
    · rw [List.mem_append] at hb
      rcases hb with hb | hb
      · exact ih _ b hb
      · simp only [List.mem_singleton] at hb
        have := Nat.mod_lt n (show 0 < 10 by omega)
        omega

theorem decDigits_digits (n : Nat) : ∀ b ∈ decDigits n, 48 ≤ b ∧ b ≤ 57 :=
  decDigitsGo_digits (n + 1) n

theorem noAngle_nil : noAngle [] := by
  intro b hb
  simp at hb

theorem noAngle_append {l1 l2 : Bytes} (h1 : noAngle l1) (h2 : noAngle l2) :
    noAngle (l1 ++ l2) := by
  intro b hb
  rw [List.mem_append] at hb
  rcases hb with hb | hb
  · exact h1 b hb
  · exact h2 b hb

theorem noAngle_newline : noAngle [10] := by
  intro b hb
  simp only [List.mem_singleton] at hb
  omega

theorem noAngle_dot : noAngle [46] := by
  intro b hb
  simp only [List.mem_singleton] at hb
  omega

theorem noAngle_bullet : noAngle bulletMarker := by
  intro b hb
  simp only [bulletMarker, List.mem_cons, List.not_mem_nil, or_false] at hb
  rcases hb with rfl | rfl | rfl | rfl <;> omega

theorem noAngle_replicate (n b0 : Nat) (h : b0 ≠ 60 ∧ b0 ≠ 62) :
    noAngle (List.replicate n b0) := by
  intro b hb
  rw [List.eq_of_mem_replicate hb]
  exact h

theorem noAngle_decDigits (n : Nat) : noAngle (decDigits n) := by
  intro b hb
  have := decDigits_digits n b hb
  omega

theorem extractHrefUrl_good (t : Bytes) : goodUrl (extractHrefUrl t) := by
  unfold extractHrefUrl goodUrl
  split
  · exact Or.inl rfl
  · split
    · exact Or.inl rfl
    · split_ifs with hq
      · split
        · exact Or.inl rfl
        · split_ifs with hk
          · dsimp only
            split_ifs with hna
            · exact Or.inl rfl
            · right
              simpa using hna
          · exact Or.inl rfl
      · exact Or.inl rfl

theorem styleFold_parent (ld : Nat) (l : List Bytes) :
    goodParent (styleFold ld l).parentTag := by
  have aux : ∀ (l2 : List Bytes) (acc : StyleAcc), goodParent acc.parentTag →
      goodParent (List.foldl (styleStep ld) acc l2).parentTag := by
    intro l2
    induction l2 with
    | nil => intro acc h; exact h
    | cons t rest ih =>
      intro acc h
      rw [List.foldl_cons]
      apply ih
      show goodParent (if isInlineFormattingTag t then t else acc.parentTag)
      by_cases hin : isInlineFormattingTag t
      · rw [if_pos hin]
        exact Or.inr hin
      · rw [if_neg hin]
        exact h
  exact aux _ _ (Or.inl rfl)

theorem stok_fields (st : ParseState) (h : StOk st) :
    (∀ u ∈ st.linkUrlStack, u ≠ [] ∧ isAllowedUrlScheme u = true) ∧
    goodUrl st.currentLinkUrl ∧ noAngle st.currentText ∧
    goodParent st.currentParentTag ∧ (∀ s ∈ st.segments, SegOk s) := h

theorem flushSegment_ok (b : Bool) (st : ParseState) (h : StOk st) :
    StOk (flushSegment b st) := by
  obtain ⟨h1, h2, h3, h4, h5⟩ := h
  unfold flushSegment
  split_ifs with hempty
  · exact ⟨h1, h2, h3, h4, h5⟩
  · refine ⟨h1, h2, noAngle_nil, h4, ?_⟩
    intro s hs
    rw [List.mem_append] at hs
    rcases hs with hs | hs
    · exact h5 s hs
    · rw [List.mem_singleton] at hs
      subst hs
      exact ⟨h2, h3, h4⟩

theorem updateStyleFromStack_ok (st : ParseState) (h : StOk st) :
    StOk (updateStyleFromStack st) := by
  obtain ⟨h1, h2, h3, h4, h5⟩ := h
  refine ⟨h1, ?_, h3, ?_, h5⟩
  · show goodUrl (match st.linkUrlStack with | [] => [] | u :: _ => u)
    cases hstk : st.linkUrlStack with
    | nil => exact Or.inl rfl
    | cons u r =>
      right
      exact (h1 u (by rw [hstk]; simp)).2
  · exact styleFold_parent st.linkDepth st.tagStack.reverse

theorem textAppend_ok (st : ParseState) (bs : Bytes) (hbs : noAngle bs)
    (h : StOk st) : StOk { st with currentText := st.currentText ++ bs } := by
  obtain ⟨h1, h2, h3, h4, h5⟩ := h
  exact ⟨h1, h2, noAngle_append h3 hbs, h4, h5⟩

theorem clearLinks_ok (st : ParseState) (h : StOk st) :
    StOk { st with linkDepth := 0, linkUrlStack := [] } := by
  obtain ⟨h1, h2, h3, h4, h5⟩ := h
  refine ⟨?_, h2, h3, h4, h5⟩
  intro u hu
  simp at hu

theorem stackPop_ok (tag : Bytes) (st : ParseState) (h : StOk st) :
    StOk { st with tagStack := st.tagStack.tail,
                   dirContext := exitElement tag st.dirContext } := by
  obtain ⟨h1, h2, h3, h4, h5⟩ := h
  exact ⟨h1, h2, h3, h4, h5⟩

theorem appendText_ok (bs : Bytes) (st : ParseState) (hbs : noAngle bs)
    (h : StOk st) : StOk (appendText bs st) :=
  textAppend_ok st bs hbs h

theorem pushTag_ok (tag : Bytes) (st : ParseState) (h : StOk st) :
    StOk (pushTag tag st) := h

theorem popTag_ok (st : ParseState) (h : StOk st) : StOk (popTag st) := h

theorem exitDir_ok (tag : Bytes) (st : ParseState) (h : StOk st) :
    StOk (exitDir tag st) := h

theorem enterDirBlock_ok (tag rest : Bytes) (st : ParseState) (h : StOk st) :
    StOk (enterDirBlock tag rest st) := h

theorem enterDirInline_ok (tag rest : Bytes) (st : ParseState) (h : StOk st) :
    StOk (enterDirInline tag rest st) := h

theorem blockCloseStep_ok (tag : Bytes) (st : ParseState) (h : StOk st) :
    StOk (blockCloseStep tag st) := by
  unfold blockCloseStep
  apply clearLinks_ok
  have hflush : StOk (flushSegment false (appendText [10] st)) :=
    flushSegment_ok false _ (appendText_ok [10] st noAngle_newline h)
  split_ifs with hmatch
  · exact updateStyleFromStack_ok _ (exitDir_ok tag _ (popTag_ok _ hflush))
  · exact hflush

theorem blockOpenStep_ok (tag rest : Bytes) (st : ParseState) (h : StOk st) :
    StOk (blockOpenStep tag rest st) :=
  updateStyleFromStack_ok _
    (enterDirBlock_ok tag rest _ (pushTag_ok tag _ (flushSegment_ok false st h)))

theorem linkPush_ok (url : Bytes) (st : ParseState)
    (hgood : goodUrl url) (hne : url ≠ []) (h : StOk st) :
    StOk { st with linkDepth := st.linkDepth + 1,
                   linkUrlStack := url :: st.linkUrlStack } := by
  obtain ⟨h1, h2, h3, h4, h5⟩ := h
  refine ⟨?_, h2, h3, h4, h5⟩
  intro u hu
  rw [List.mem_cons] at hu
  rcases hu with rfl | hu
  · refine ⟨hne, ?_⟩
    rcases hgood with hh | hh
    · exact absurd hh hne
    · exact hh
  · exact h1 u hu

theorem tryPushLink_ok (tag : Bytes) (st : ParseState) (h : StOk st) :
    StOk (tryPushLink tag st) := by
  unfold tryPushLink
  dsimp only
  split_ifs with ha hu
  · exact linkPush_ok _ _ (extractHrefUrl_good _) (by simpa using hu) h
  · exact h
  · exact h

theorem bdiBdoOpenMark_ok (tag : Bytes) (st : ParseState) (h : StOk st) :
    StOk (bdiBdoOpenMark tag st) := by
  unfold bdiBdoOpenMark
  dsimp only
  split_ifs <;>
    first
      | exact h
      | exact appendText_ok _ _ (by decide) h

theorem inlineOpenStep_ok (tag rest : Bytes) (st : ParseState) (h : StOk st) :
    StOk (inlineOpenStep tag rest st) :=
  updateStyleFromStack_ok _
    (bdiBdoOpenMark_ok tag _
      (enterDirInline_ok tag rest _
        (tryPushLink_ok tag _ (pushTag_ok tag _ (flushSegment_ok false st h)))))

theorem bdiBdoCloseMark_ok (tag : Bytes) (st : ParseState) (h : StOk st) :
    StOk (bdiBdoCloseMark tag st) := by
  unfold bdiBdoCloseMark
  split_ifs <;>
    first
      | exact h
      | exact appendText_ok _ _ (by decide) h

theorem popLink_ok (tag : Bytes) (st : ParseState) (h : StOk st) :
    StOk (popLink tag st) := by
  unfold popLink
  obtain ⟨h1, h2, h3, h4, h5⟩ := h
  split_ifs with ha
  · refine ⟨?_, h2, h3, h4, h5⟩
    intro u hu
    exact h1 u (List.mem_of_mem_tail hu)
  · exact ⟨h1, h2, h3, h4, h5⟩

theorem inlineCloseStep_ok (tag : Bytes) (st : ParseState) (h : StOk st) :
    StOk (inlineCloseStep tag st) := by
  unfold inlineCloseStep
  have hflush : StOk (flushSegment true (bdiBdoCloseMark tag st)) :=
    flushSegment_ok true _ (bdiBdoCloseMark_ok tag st h)
  dsimp only
  split_ifs with hmatch
  · exact updateStyleFromStack_ok _
      (exitDir_ok tag _ (popLink_ok tag _ (popTag_ok _ hflush)))
  · exact hflush

theorem liNewline_ok (st : ParseState) (h : StOk st) : StOk (liNewline st) := by
  unfold liNewline
  split_ifs
  · exact appendText_ok [10] st noAngle_newline h
  · exact h

theorem liOpenStep_ok (st : ParseState) (h : StOk st) : StOk (liOpenStep st) := by
  unfold liOpenStep
  have h1 : StOk (liNewline st) := liNewline_ok st h
  revert h1
  generalize liNewline st = st1
  intro h1
  dsimp only
  split
  · exact appendText_ok _ _ noAngle_bullet h1
  · rename_i ctx restL heq
    have hmarker : noAngle (if ctx.type == FabricRichListType.Ordered
        then decDigits (ctx.itemCounter + 1) ++ [46, 32] else bulletMarker) := by
      split_ifs
      · apply noAngle_append (noAngle_decDigits _)
        intro b hb
        simp only [List.mem_cons, List.not_mem_nil, or_false] at hb
        rcases hb with rfl | rfl <;> omega
      · exact noAngle_bullet
    have hind : StOk (if liIndentLevel st1.listStack.length > 0 then
        appendText (List.replicate (liIndentLevel st1.listStack.length * 4) 32) st1
      else st1) := by
      split_ifs
      · exact appendText_ok _ _ (noAngle_replicate _ 32 (by omega)) h1
      · exact h1
    have happ := appendText_ok _ _ hmarker hind
    exact ⟨happ.1, happ.2.1, happ.2.2.1, happ.2.2.2.1, happ.2.2.2.2⟩

theorem liCloseStep_ok (st : ParseState) (h : StOk st) : StOk (liCloseStep st) := by
  unfold liCloseStep
  split
  · exact h
  · split_ifs
    · exact appendText_ok [46] st noAngle_dot h
    · exact h

theorem ulOpenStep_ok (st : ParseState) (h : StOk st) : StOk (ulOpenStep st) := h

theorem olOpenStep_ok (st : ParseState) (h : StOk st) : StOk (olOpenStep st) := h

theorem ulolCloseStep_ok (st : ParseState) (h : StOk st) : StOk (ulolCloseStep st) := by
  unfold ulolCloseStep
  have h1 : StOk { st with listStack := st.listStack.tail } := h
  dsimp only
  split_ifs
  · exact flushSegment_ok false _ (appendText_ok [10] _ noAngle_newline h1)
  · exact h1

theorem tagDispatch_ok (ic : Bool) (ct rest : Bytes) (st0 : ParseState)
    (h0 : StOk st0) : StOk (tagDispatch ic ct rest st0) := by
  unfold tagDispatch
  by_cases hc0 : (ct == bytesOf "script") = true
  · rw [if_pos hc0]
    exact h0
  · rw [if_neg hc0]
    by_cases hc1 : (ct == bytesOf "style") = true
    · rw [if_pos hc1]
      exact h0
    · rw [if_neg hc1]
      by_cases hc2 : (ct == bytesOf "br") = true
      · rw [if_pos hc2]
        exact appendText_ok [10] _ noAngle_newline h0
      · rw [if_neg hc2]
        by_cases hc3 : (ic && isBlockPDH ct) = true
        · rw [if_pos hc3]
          exact blockCloseStep_ok _ _ h0
        · rw [if_neg hc3]
          by_cases hc4 : (!ic && isBlockPDH ct) = true
          · rw [if_pos hc4]
            exact blockOpenStep_ok _ _ _ h0
          · rw [if_neg hc4]
            by_cases hc5 : (!ic && isInlineFormattingTag ct) = true
            · rw [if_pos hc5]
              exact inlineOpenStep_ok _ _ _ h0
            · rw [if_neg hc5]
              by_cases hc6 : (ic && isInlineFormattingTag ct) = true
              · rw [if_pos hc6]
                exact inlineCloseStep_ok _ _ h0
              · rw [if_neg hc6]
                by_cases hc7 : (!ic && ct == bytesOf "li") = true
                · rw [if_pos hc7]
                  exact liOpenStep_ok _ h0
                · rw [if_neg hc7]
                  by_cases hc8 : (ic && ct == bytesOf "li") = true
                  · rw [if_pos hc8]
                    exact liCloseStep_ok _ h0
                  · rw [if_neg hc8]
                    by_cases hc9 : (!ic && ct == bytesOf "ul") = true
                    · rw [if_pos hc9]
                      exact ulOpenStep_ok _ h0
                    · rw [if_neg hc9]
                      by_cases hc10 : (!ic && ct == bytesOf "ol") = true
                      · rw [if_pos hc10]
                        exact olOpenStep_ok _ h0
                      · rw [if_neg hc10]
                        by_cases hc11 : (ic && (ct == bytesOf "ul" || ct == bytesOf "ol")) = true
                        · rw [if_pos hc11]
                          exact ulolCloseStep_ok _ h0
                        · rw [if_neg hc11]
                          exact h0

theorem handleTag_ok (rest : Bytes) (st : ParseState) (h : StOk st) :
    StOk (handleTag rest st) := by
  unfold handleTag
  have key : ∀ st1 : ParseState, StOk st1 → StOk { st1 with tagName := ([] : Bytes) } :=
    fun st1 h1 => h1
  apply key
  exact tagDispatch_ok _ _ rest _ h

theorem parseStep_ok (c : Nat) (rest : Bytes) (st : ParseState) (h : StOk st) :
    StOk (parseStep c rest st) := by
  unfold parseStep
  split_ifs with h60 h62 htag htext
  · exact h
  · exact handleTag_ok rest st h
  · exact h
  · apply textAppend_ok st [c] _ h
    intro b hb
    rw [List.mem_singleton] at hb
    subst hb
    constructor
    · intro hc; rw [hc] at h60; simp at h60
    · intro hc; rw [hc] at h62; simp at h62
  · exact h

theorem parseLoop_ok (l : Bytes) (st : ParseState) (h : StOk st) :
    StOk (parseLoop l st) := by
  induction l generalizing st with
  | nil => exact h
  | cons c rest ih => exact ih _ (parseStep_ok c rest st h)

theorem initState_ok : StOk initState := by
  refine ⟨?_, Or.inl rfl, noAngle_nil, Or.inl rfl, ?_⟩
  · intro u hu; simp [initState] at hu
  · intro s hs; simp [initState] at hs

theorem parseMarkupToSegments_segok (markup : Bytes) :
    ∀ s ∈ parseMarkupToSegments markup, SegOk s := by
  unfold parseMarkupToSegments
  split_ifs with hempty
  · intro s hs; simp at hs
  · have := flushSegment_ok false (parseLoop markup initState)
      (parseLoop_ok markup initState initState_ok)
    exact this.2.2.2.2

/-! ### Builder lemmas (claims C2, C3, C4, C7) -/

theorem emitSegs_len (l : List FabricRichTextSegment) :
    (emitSegs l).1.length = (emitSegs l).2.length := by
  induction l with
  | nil => rfl
  | cons seg rest ih =>
    cases rest with
    | nil =>
      unfold emitSegs
      dsimp only
      split_ifs <;> rfl
    | cons seg2 rest2 =>
      unfold emitSegs
      dsimp only
      split_ifs
      · exact ih
      · simpa using ih

theorem emitSegs_linkUrls_sub (l : List FabricRichTextSegment) :
    ∀ u ∈ (emitSegs l).2, ∃ s ∈ l, u = s.linkUrl := by
  induction l with
  | nil => intro u hu; simp [emitSegs] at hu
  | cons seg rest ih =>
    cases rest with
    | nil =>
      intro u hu
      unfold emitSegs at hu
      dsimp only at hu
      split_ifs at hu
      · simp at hu
      · rw [List.mem_singleton] at hu
        exact ⟨seg, by simp, hu⟩
    | cons seg2 rest2 =>
      intro u hu
      unfold emitSegs at hu
      dsimp only at hu
      split_ifs at hu
      · obtain ⟨s, hs, he⟩ := ih u hu
        exact ⟨s, by simp [hs], he⟩
      · rw [List.mem_cons] at hu
        rcases hu with rfl | hu
        · exact ⟨seg, by simp, rfl⟩
        · obtain ⟨s, hs, he⟩ := ih u hu
          exact ⟨s, by simp [hs], he⟩

theorem normSegGo_chars :
    ∀ (t : Bytes) (lws hasC : Bool) (b : Nat), b ∈ normSegGo lws hasC t →
      b ∈ t ∨ b = 32 ∨ b = 10 := by
  intro t
  induction t with
  | nil => intro lws hasC b hb; simp [normSegGo] at hb
  | cons c rest ih =>
    intro lws hasC b hb
    unfold normSegGo at hb
    split_ifs at hb <;>
      first
        | (rw [List.mem_cons] at hb
           rcases hb with rfl | hb
           · simp
           · rcases ih _ _ _ hb with h | h
             · exact Or.inl (by simp [h])
             · exact Or.inr h)
        | (rcases ih _ _ _ hb with h | h
           · exact Or.inl (by simp [h])
           · exact Or.inr h)

theorem normalizeSegmentText_chars (t : Bytes) (pn pls : Bool) (b : Nat)
    (hb : b ∈ normalizeSegmentText t pn pls) : b ∈ t ∨ b = 32 ∨ b = 10 := by
  unfold normalizeSegmentText at hb
  split_ifs at hb
  · exact Or.inl (List.mem_of_mem_filter hb)
  · exact normSegGo_chars t _ _ b hb

theorem rtrimWs_sub (l : Bytes) : ∀ b ∈ rtrimWs l, b ∈ l := by
  intro b hb
  unfold rtrimWs at hb
  rw [List.mem_reverse] at hb
  have := List.dropWhile_subset cIsSpace hb
  rwa [List.mem_reverse] at this

theorem noAngle_normalizeSegmentText (t : Bytes) (pn pls : Bool)
    (h : noAngle t) : noAngle (normalizeSegmentText t pn pls) := by
  intro b hb
  rcases normalizeSegmentText_chars t pn pls b hb with hm | rfl | rfl
  · exact h b hm
  · omega
  · omega

theorem noAngle_rtrim (l : Bytes) (h : noAngle l) : noAngle (rtrimWs l) :=
  fun b hb => h b (rtrimWs_sub l b hb)

theorem emitSegs_fragments_noAngle (l : List FabricRichTextSegment)
    (h : ∀ s ∈ l, noAngle s.text) : ∀ f ∈ (emitSegs l).1, noAngle f := by
  induction l with
  | nil => intro f hf; simp [emitSegs] at hf
  | cons seg rest ih =>
    have hseg : noAngle seg.text := h seg (by simp)
    have hrest : ∀ s ∈ rest, noAngle s.text := fun s hs => h s (by simp [hs])
    cases rest with
    | nil =>
      intro f hf
      unfold emitSegs at hf
      dsimp only at hf
      split_ifs at hf
      · simp at hf
      · rw [List.mem_singleton] at hf
        subst hf
        exact noAngle_rtrim _ (noAngle_normalizeSegmentText _ _ _ hseg)
    | cons seg2 rest2 =>
      intro f hf
      unfold emitSegs at hf
      dsimp only at hf
      split_ifs at hf
      · exact ih hrest f hf
      · rw [List.mem_cons] at hf
        rcases hf with rfl | hf
        · exact noAngle_normalizeSegmentText _ _ _ hseg
        · exact ih hrest f hf

theorem trimTrailingBreaks_sub (l : List FabricRichTextSegment) :
    ∀ s ∈ trimTrailingBreaks l, s ∈ l := by
  intro s hs
  unfold trimTrailingBreaks at hs
  rw [List.mem_reverse] at hs
  have := List.dropWhile_subset (fun s : FabricRichTextSegment => isParagraphBreak s.text) hs
  rwa [List.mem_reverse] at this

theorem a11yGo_eq_emit :
    ∀ (l acc : Bytes), a11yGo acc l = acc ++ a11yEmit acc.getLast? l := by
  intro l
  induction l with
  | nil => intro acc; simp [a11yGo, a11yEmit]
  | cons c rest ih =>
    intro acc
    unfold a11yGo a11yEmit
    dsimp only
    by_cases htrig : (c == 10 && markerStartsB rest &&
        (match acc.getLast? with
         | none => false
         | some lastChar => !isTermB lastChar)) = true
    · have hc : c = 10 := by
        have h2 := htrig
        simp only [Bool.and_eq_true, beq_iff_eq] at h2
        exact h2.1.1
      subst hc
      rw [if_pos htrig, if_pos htrig, ih]
      have hlast : ((acc ++ [46]) ++ [10]).getLast? = some 10 := by
        simp
      rw [hlast]
      simp
    · rw [if_neg htrig, if_neg htrig, ih]
      have hlast : (acc ++ [c]).getLast? = some c := by simp
      rw [hlast]
      simp

theorem a11yEmit_chars :
    ∀ (l : Bytes) (prev : Option Nat) (b : Nat),
      b ∈ a11yEmit prev l → b ∈ l ∨ b = 46 := by
  intro l
  induction l with
  | nil => intro prev b hb; simp [a11yEmit] at hb
  | cons c rest ih =>
    intro prev b hb
    unfold a11yEmit at hb
    split_ifs at hb with htrig
    · have hc : c = 10 := by
        simp only [Bool.and_eq_true, beq_iff_eq] at htrig
        exact htrig.1.1
      subst hc
      rw [List.mem_cons] at hb
      rcases hb with rfl | hb
      · exact Or.inr rfl
      · rw [List.mem_cons] at hb
        rcases hb with rfl | hb
        · exact Or.inl (by simp)
        · rcases ih _ b hb with h | h
          · exact Or.inl (by simp [h])
          · exact Or.inr h
    · rw [List.mem_cons] at hb
      rcases hb with rfl | hb
      · exact Or.inl (by simp)
      · rcases ih _ b hb with h | h
        · exact Or.inl (by simp [h])
        · exact Or.inr h

theorem buildAccessibilityLabel_chars (t : Bytes) (b : Nat)
    (hb : b ∈ buildAccessibilityLabel t) : b ∈ t ∨ b = 46 := by
  unfold buildAccessibilityLabel at hb
  rw [a11yGo_eq_emit t []] at hb
  simp only [List.nil_append, List.getLast?_nil] at hb
  exact a11yEmit_chars t none b hb

/-! ### URL allowlist equivalence and pipeline theorems (claims C2, C3, C4) -/

theorem dropWhile_nil_of_all {p : Nat → Bool} :
    ∀ l : Bytes, l.all p = true → l.dropWhile p = [] := by
  intro l h
  induction l with
  | nil => rfl
  | cons c rest ih =>
    rw [List.all_cons, Bool.and_eq_true] at h
    rw [List.dropWhile_cons, if_pos h.1]
    exact ih h.2

theorem dropWhile_ne_nil_of_not_all {p : Nat → Bool} :
    ∀ l : Bytes, ¬(l.all p = true) → l.dropWhile p ≠ [] := by
  intro l h
  induction l with
  | nil => exact absurd rfl h
  | cons c rest ih =>
    rw [List.dropWhile_cons]
    split_ifs with hc
    · apply ih
      intro hall
      exact h (by rw [List.all_cons, hc, hall]; rfl)
    · simp

theorem no_colon_of_all_ws :
    ∀ l : Bytes, l.all urlTrimWs = true → firstIdxB (· == 58) l = none := by
  intro l h
  induction l with
  | nil => rfl
  | cons c rest ih =>
    rw [List.all_cons, Bool.and_eq_true] at h
    have hc : (c == 58) = false := by
      simp only [urlTrimWs, Bool.or_eq_true, beq_iff_eq] at h
      rcases h.1 with ((rfl | rfl) | rfl) | rfl <;> rfl
    unfold firstIdxB
    rw [hc, ih h.2]
    rfl

theorem urlChainEq (p1 p2 p3 p4 h47 h35 m : Bool) :
    (if (p1 || p2 || p3 || p4) = true then true
     else if (false || h47 || h35) = true then true else m) =
    (p1 || p2 || p3 || p4 || h35 || h47 || m) := by
  cases p1 <;> cases p2 <;> cases p3 <;> cases p4 <;> cases h47 <;> cases h35 <;>
    cases m <;> rfl

theorem allowed_eq_spec (url : Bytes) :
    isAllowedUrlScheme url = isAllowedUrlSchemeSpec url := by
  unfold isAllowedUrlScheme isAllowedUrlSchemeSpec
  dsimp only
  by_cases hall : (url.map toLowerB).all urlTrimWs = true
  · rw [if_pos hall]
    have hcolon : firstIdxB (· == 58) (url.map toLowerB) = none :=
      no_colon_of_all_ws _ hall
    have hdrop : (url.map toLowerB).dropWhile urlTrimWs = [] :=
      dropWhile_nil_of_all _ hall
    rw [hdrop]
    have hlhs : (if ((bytesOf "http://").isPrefixOf (url.map toLowerB) ||
          (bytesOf "https://").isPrefixOf (url.map toLowerB) ||
          (bytesOf "mailto:").isPrefixOf (url.map toLowerB) ||
          (bytesOf "tel:").isPrefixOf (url.map toLowerB)) = true then true
        else if ((url.map toLowerB).isEmpty ||
            ((url.map toLowerB).head? == some 47) ||
            ((url.map toLowerB).head? == some 35)) = true then true
        else
          match firstIdxB (· == 58) (url.map toLowerB),
              firstIdxB (· == 47) (url.map toLowerB) with
          | none, _ => true
          | some colonPos, some slashPos => decide (slashPos < colonPos)
          | some _, none => false) = true := by
      split_ifs
      · rfl
      · rfl
      · rw [hcolon]
    rw [hlhs]
    decide
  · rw [if_neg hall]
    have hne := dropWhile_ne_nil_of_not_all (url.map toLowerB) hall
    generalize hu : (url.map toLowerB).dropWhile urlTrimWs = u
    rw [hu] at hne
    have hemp : u.isEmpty = false := by
      cases u
      · exact absurd rfl hne
      · rfl
    rw [hemp]
    exact urlChainEq _ _ _ _ _ _ _

theorem buildAttributedString_linkUrls_good (segs : List FabricRichTextSegment)
    (h : ∀ s ∈ segs, SegOk s) :
    ∀ u ∈ (buildAttributedString segs).linkUrls, goodUrl u := by
  intro u hu
  unfold buildAttributedString at hu
  dsimp only at hu
  split_ifs at hu
  · simp at hu
  · simp at hu
  · dsimp only at hu
    obtain ⟨s, hs, rfl⟩ := emitSegs_linkUrls_sub _ u hu
    exact (h s (trimTrailingBreaks_sub segs s hs)).1

/-- C2: every entry of the parallel link-URL array of parseWithLinks is
either empty or accepted by isAllowedUrlScheme, and isAllowedUrlScheme is
exactly the allowlist stated by the claim (after lowercasing and trimming
the code's whitespace set: http, https, mailto, tel, fragment, absolute
path, and colon-free or colon-after-slash strings), which rejects the
javascript, vbscript and data schemes. -/
theorem claimC2_link_urls_allowlisted :
    (∀ markup : Bytes, ∀ u ∈ (parseMarkupWithLinkUrls markup).linkUrls,
      u = [] ∨ isAllowedUrlScheme u = true) ∧
    (∀ url : Bytes, isAllowedUrlScheme url = isAllowedUrlSchemeSpec url) ∧
    isAllowedUrlScheme (bytesOf "javascript:alert(1)") = false ∧
    isAllowedUrlScheme (bytesOf "vbscript:msgbox(1)") = false ∧
    isAllowedUrlScheme (bytesOf "data:text/html,x") = false := by
  refine ⟨?_, allowed_eq_spec, by decide, by decide, by decide⟩
  intro markup u hu
  unfold parseMarkupWithLinkUrls at hu
  dsimp only at hu
  split_ifs at hu
  · simp at hu
  · simp at hu
  · exact buildAttributedString_linkUrls_good _
      (parseMarkupToSegments_segok _) u hu

/-- C2 witness: the safe link of concrete input is a nonempty entry of the
parallel array and is accepted. -/
theorem claimC2_witness :
    bytesOf "https://x" = [] ∨ isAllowedUrlScheme (bytesOf "https://x") = true :=
  claimC2_link_urls_allowlisted.1 (bytesOf "<a href=\"https://x\">y</a>")
    (bytesOf "https://x") (by decide)

/-- C3: the parallel arrays of the builder have equal lengths, for every
segment list and hence for every parsed input. -/
theorem claimC3_parallel_arrays :
    (∀ segs : List FabricRichTextSegment,
      (buildAttributedString segs).fragments.length =
        (buildAttributedString segs).linkUrls.length) ∧
    (∀ markup : Bytes,
      (parseMarkupWithLinkUrls markup).fragments.length =
        (parseMarkupWithLinkUrls markup).linkUrls.length) := by
  have hbuild : ∀ segs : List FabricRichTextSegment,
      (buildAttributedString segs).fragments.length =
        (buildAttributedString segs).linkUrls.length := by
    intro segs
    unfold buildAttributedString
    dsimp only
    split_ifs
    · rfl
    · rfl
    · exact emitSegs_len _
  refine ⟨hbuild, ?_⟩
  intro markup
  unfold parseMarkupWithLinkUrls
  dsimp only
  split_ifs
  · rfl
  · rfl
  · exact hbuild _

theorem buildAttributedString_label_chars (segs : List FabricRichTextSegment)
    (h : ∀ s ∈ segs, SegOk s) :
    noAngle (buildAttributedString segs).accessibilityLabel := by
  unfold buildAttributedString
  dsimp only
  split_ifs
  · exact noAngle_nil
  · exact noAngle_nil
  · dsimp only
    intro b hb
    rcases buildAccessibilityLabel_chars _ b hb with hm | rfl
    · rw [List.mem_flatten] at hm
      obtain ⟨f, hf, hbf⟩ := hm
      have := emitSegs_fragments_noAngle (trimTrailingBreaks segs)
        (fun s hs => (h s (trimTrailingBreaks_sub segs s hs)).2.1) f hf
      exact this b hbf
    · omega

/-- C4: the accessibility label returned by parseWithLinks never contains
an angle-bracket byte: a less-than byte always enters tag-read mode, a
greater-than byte is always consumed as a tag terminator, and the label
builder only adds periods. -/
theorem claimC4_label_no_angle_brackets :
    ∀ markup : Bytes, ∀ b ∈ (parseMarkupWithLinkUrls markup).accessibilityLabel,
      b ≠ 60 ∧ b ≠ 62 := by
  intro markup
  unfold parseMarkupWithLinkUrls
  dsimp only
  split_ifs
  · exact noAngle_nil
  · exact noAngle_nil
  · exact buildAttributedString_label_chars _ (parseMarkupToSegments_segok _)

/-! ### Accessibility-label period insertion (claim C7) -/

theorem a11yEmit_cons (prev : Option Nat) (c : Nat) (rest : Bytes) :
    a11yEmit prev (c :: rest) =
      if (c == 10 && markerStartsB rest &&
          (match prev with | none => false | some p => !isTermB p)) = true then
        46 :: 10 :: a11yEmit (some 10) rest
      else c :: a11yEmit (some c) rest := rfl

theorem a11yEmit_cons_ne10 (prev : Option Nat) (c : Nat) (rest : Bytes)
    (hc : ¬c = 10) :
    a11yEmit prev (c :: rest) = c :: a11yEmit (some c) rest := by
  rw [a11yEmit_cons, if_neg]
  intro h
  simp only [Bool.and_eq_true, beq_iff_eq] at h
  exact hc h.1.1

theorem a11yEmit_head10 (prev : Option Nat) (rest : Bytes) :
    a11yEmit prev (10 :: rest) = 46 :: 10 :: a11yEmit (some 10) rest ∨
    a11yEmit prev (10 :: rest) = 10 :: a11yEmit (some 10) rest := by
  rw [a11yEmit_cons]
  split_ifs
  · exact Or.inl rfl
  · exact Or.inr rfl

theorem markerStartsB_digit (b : Nat) (rest : Bytes) (hd : isDigitB b = true) :
    markerStartsB (b :: rest) = true := by
  simp [markerStartsB, hd]

theorem markerStartsB_false1 (b : Nat) (rest : Bytes) (h1 : isDigitB b = false)
    (h2 : ¬b = 226) : markerStartsB (b :: rest) = false := by
  have hb : (b == 226) = false := by simp [h2]
  rcases rest with _ | ⟨x, _ | ⟨y, r⟩⟩
  · simp [markerStartsB, h1]
  · simp [markerStartsB, h1]
  · simp [markerStartsB, h1, hb]

theorem markerStartsB_false2 (b1 b2 : Nat) (rest : Bytes)
    (h1 : isDigitB b1 = false) (h2 : ¬b2 = 128) :
    markerStartsB (b1 :: b2 :: rest) = false := by
  have hb : (b2 == 128) = false := by simp [h2]
  rcases rest with _ | ⟨y, r⟩
  · simp [markerStartsB, h1]
  · simp [markerStartsB, h1, hb]

theorem markerStartsB_false3 (b1 b2 b3 : Nat) (rest : Bytes)
    (h1 : isDigitB b1 = false) (h3 : ¬b3 = 162) :
    markerStartsB (b1 :: b2 :: b3 :: rest) = false := by
  have hb : (b3 == 162) = false := by simp [h3]
  simp [markerStartsB, h1, hb]

theorem markerStartsB_true3 (rest : Bytes) :
    markerStartsB (226 :: 128 :: 162 :: rest) = true := rfl

theorem a11yEmit_markerStarts (l : Bytes) (prev : Option Nat) :
    markerStartsB (a11yEmit prev l) = markerStartsB l := by
  rcases l with _ | ⟨c, rest⟩
  · rfl
  · by_cases hc10 : c = 10
    · subst hc10
      have h1 : markerStartsB (10 :: rest) = false :=
        markerStartsB_false1 10 rest (by decide) (by decide)
      rcases a11yEmit_head10 prev rest with h | h <;> rw [h, h1]
      · exact markerStartsB_false1 46 _ (by decide) (by decide)
      · exact markerStartsB_false1 10 _ (by decide) (by decide)
    · rw [a11yEmit_cons_ne10 prev c rest hc10]
      by_cases hd : isDigitB c = true
      · rw [markerStartsB_digit c _ hd, markerStartsB_digit c rest hd]
      · have hd' : isDigitB c = false := by
          cases h : isDigitB c
          · rfl
          · exact absurd h hd
        by_cases h226 : c = 226
        · subst h226
          rcases rest with _ | ⟨c2, r2⟩
          · rfl
          · by_cases hc210 : c2 = 10
            · subst hc210
              have hr : markerStartsB (226 :: 10 :: r2) = false :=
                markerStartsB_false2 226 10 r2 (by decide) (by decide)
              rcases a11yEmit_head10 (some 226) r2 with h | h <;> rw [h, hr]
              · exact markerStartsB_false2 226 46 _ (by decide) (by decide)
              · exact markerStartsB_false2 226 10 _ (by decide) (by decide)
            · rw [a11yEmit_cons_ne10 (some 226) c2 r2 hc210]
              by_cases h128 : c2 = 128
              · subst h128
                rcases r2 with _ | ⟨c3, r3⟩
                · rfl
                · by_cases hc310 : c3 = 10
                  · subst hc310
                    have hr : markerStartsB (226 :: 128 :: 10 :: r3) = false :=
                      markerStartsB_false3 226 128 10 r3 (by decide) (by decide)
                    rcases a11yEmit_head10 (some 128) r3 with h | h <;> rw [h, hr]
                    · exact markerStartsB_false3 226 128 46 _ (by decide) (by decide)
                    · exact markerStartsB_false3 226 128 10 _ (by decide) (by decide)
                  · rw [a11yEmit_cons_ne10 (some 128) c3 r3 hc310]
                    by_cases h162 : c3 = 162
                    · subst h162
                      rw [markerStartsB_true3, markerStartsB_true3]
                    · rw [markerStartsB_false3 226 128 c3 _ (by decide) h162,
                        markerStartsB_false3 226 128 c3 r3 (by decide) h162]
              · rw [markerStartsB_false2 226 c2 _ (by decide) h128,
                  markerStartsB_false2 226 c2 r2 (by decide) h128]
        · rw [markerStartsB_false1 c _ hd' h226,
            markerStartsB_false1 c rest hd' h226]

theorem checkLabel_emit :
    ∀ (l : Bytes) (prev : Option Nat),
      checkLabel prev (a11yEmit prev l) = true := by
  intro l
  induction l with
  | nil => intro prev; rfl
  | cons c rest ih =>
    intro prev
    rw [a11yEmit_cons]
    split_ifs with htrig
    · cases h : markerStartsB (a11yEmit (some 10) rest) <;>
        simp [checkLabel, h, ih (some 10), show isTermB 46 = true from rfl]
    · by_cases hTrig2 : (c == 10 && markerStartsB (a11yEmit (some c) rest)) = true
      · simp only [Bool.and_eq_true, beq_iff_eq] at hTrig2
        obtain ⟨hc, hmsE⟩ := hTrig2
        subst hc
        have hms : markerStartsB rest = true := by
          rw [a11yEmit_markerStarts rest (some 10)] at hmsE; exact hmsE
        simp only [Bool.not_eq_true] at htrig
        rw [show ((10:Nat) == 10) = true from rfl] at htrig
        rw [hms] at htrig
        simp only [Bool.true_and] at htrig
        cases prev with
        | none => simp [checkLabel, hmsE, ih (some 10)]
        | some p =>
          have hp : isTermB p = true := by simpa using htrig
          simp [checkLabel, hmsE, hp, ih (some 10)]
      · simp only [Bool.not_eq_true] at hTrig2
        simp [checkLabel, hTrig2, ih (some c)]

theorem buildAccessibilityLabel_check (t : Bytes) :
    checkLabel none (buildAccessibilityLabel t) = true := by
  unfold buildAccessibilityLabel
  rw [a11yGo_eq_emit t []]
  simp only [List.nil_append, List.getLast?_nil]
  exact checkLabel_emit t none

/-- C7 counterexample: on input ol containing a textual item prefix, the
plain text of the fragments is x period space newline 1 period space y
period; the preceding non-whitespace character before the newline is a
period, already a sentence terminator, so the rule of the claim inserts
nothing, yet the code inserts a period because it tests the last emitted
byte, a space, and produces a different label. -/
theorem claimC7_counterexample :
    (parseMarkupWithLinkUrls (bytesOf "<ol>x. <li>y</li></ol>")).accessibilityLabel =
      [120, 46, 32, 46, 10, 49, 46, 32, 121, 46] ∧
    claimC7LabelRule
        (parseMarkupWithLinkUrls (bytesOf "<ol>x. <li>y</li></ol>")).fragments.flatten =
      [120, 46, 32, 10, 49, 46, 32, 121, 46] ∧
    ([120, 46, 32, 46, 10, 49, 46, 32, 121, 46] : Bytes) ≠
      [120, 46, 32, 10, 49, 46, 32, 121, 46] :=
  ⟨rfl, rfl, by decide⟩

/-- C7 (amended): the builder inserts a period before a newline that
precedes a list marker exactly when the label built so far is nonempty and
its LAST EMITTED BYTE, whitespace included, is not a sentence terminator;
consequently in the final label every such newline is at the start or
immediately preceded by a sentence-terminator byte. -/
theorem claimC7_period_insertion :
    ∀ markup : Bytes,
      checkLabel none (parseMarkupWithLinkUrls markup).accessibilityLabel = true := by
  intro markup
  unfold parseMarkupWithLinkUrls
  dsimp only
  split_ifs
  · rfl
  · rfl
  · unfold buildAttributedString
    dsimp only
    split_ifs
    · rfl
    · exact buildAccessibilityLabel_check _

/-! ### Heading style (claim C9) -/

theorem inline_not_heading (t : Bytes) (h : isInlineFormattingTag t = true) :
    isHeadingB t = false := by
  simp only [isInlineFormattingTag, Bool.or_eq_true, beq_iff_eq] at h
  rcases h with ((((((((((((((rfl | rfl) | rfl) | rfl) | rfl) | rfl) | rfl) |
    rfl) | rfl) | rfl) | rfl) | rfl) | rfl) | rfl) | rfl) <;> rfl

theorem goodParent_not_heading (t : Bytes) (h : goodParent t) :
    isHeadingB t = false := by
  rcases h with rfl | h
  · rfl
  · exact inline_not_heading t h

theorem styleFold_heading (ld : Nat) (l : List Bytes) :
    ∀ h : Bytes, (l.filter isHeadingB).getLast? = some h →
      (styleFold ld l).scale = getHeadingScale h ∧
      (styleFold ld l).bold = true := by
  induction l using List.reverseRecOn with
  | nil => intro h hh; simp at hh
  | append_singleton xs x ih =>
    intro h hh
    rw [List.filter_append] at hh
    unfold styleFold at ih ⊢
    rw [List.foldl_append]
    by_cases hx : isHeadingB x = true
    · rw [show List.filter isHeadingB [x] = [x] by simp [hx]] at hh
      rw [List.getLast?_concat] at hh
      have hxh : x = h := by injection hh
      subst hxh
      constructor
      · show (if isHeadingB x then getHeadingScale x else _) = getHeadingScale x
        rw [if_pos hx]
      · show (if isHeadingB x || _ || _ then true else _) = true
        rw [hx]
        rfl
    · have hx' : isHeadingB x = false := by
        cases hxe : isHeadingB x
        · rfl
        · exact absurd hxe hx
      rw [show List.filter isHeadingB [x] = [] by simp [hx']] at hh
      rw [List.append_nil] at hh
      obtain ⟨ihs, ihb⟩ := ih h hh
      constructor
      · show (if isHeadingB x then getHeadingScale x else _) = getHeadingScale h
        rw [if_neg hx, ihs]
      · show (if isHeadingB x || _ || _ then true else _) = true
        split_ifs
        · rfl
        · exact ihb

/-- C9: every segment of parseMarkupToSegments whose parentTag is an hN
heading tag has fontScale headingScale(hN), times 100, and isBold true; the
property is vacuously satisfied because parentTag only ever holds inline
formatting tags, and, contentfully, the tag-stack walk of
updateStyleFromStack gives any segment inside an hN element scale
headingScale(hN) and bold true, hN being the innermost heading on the
stack. -/
theorem claimC9_heading_style :
    (∀ markup : Bytes, (parseMarkupToSegments markup).all
        (fun s => !(isHeadingB s.parentTag) ||
          (s.fontScale == getHeadingScale s.parentTag && s.isBold)) = true) ∧
    (∀ (ld : Nat) (l : List Bytes) (h : Bytes),
        (l.filter isHeadingB).getLast? = some h →
        (styleFold ld l).scale = getHeadingScale h ∧
        (styleFold ld l).bold = true) := by
  constructor
  · intro markup
    rw [List.all_eq_true]
    intro s hs
    have hok := parseMarkupToSegments_segok markup s hs
    have hp : isHeadingB s.parentTag = false :=
      goodParent_not_heading s.parentTag hok.2.2
    rw [hp]
    rfl
  · exact styleFold_heading

/-- C9 witness: a concrete stack holding only the h2 tag satisfies the
filter hypothesis and yields scale 150 and bold. -/
theorem claimC9_witness :
    (([bytesOf "h2"].filter isHeadingB).getLast? = some (bytesOf "h2")) ∧
    (styleFold 0 [bytesOf "h2"]).scale = getHeadingScale (bytesOf "h2") ∧
    (styleFold 0 [bytesOf "h2"]).bold = true :=
  ⟨by decide, claimC9_heading_style.2 0 [bytesOf "h2"] (bytesOf "h2") (by decide)⟩

/-! ### List-item indentation (claim C5) -/

theorem liNewline_stack (st : ParseState) :
    (liNewline st).listStack = st.listStack := by
  unfold liNewline
  split_ifs <;> rfl

/-- C5 counterexample: the plain-text extractor emits the nested li of a
two-level list with no indent at all in its final output, four spaces
nowhere occurring in it, because the whitespace pass collapses the indent;
and its li handler is uncapped: at nesting depth 102 it emits
4 x 101 = 404 indent spaces, exceeding the 400-space bound of the claim. -/
theorem claimC5_counterexample :
    stripHtmlTags (bytesOf "<ul><li>a<ul><li>b</li></ul></li></ul>") =
      [226, 128, 162, 32, 97, 10, 226, 128, 162, 32, 98] ∧
    ¬ List.IsInfix (List.replicate 4 32)
      (stripHtmlTags (bytesOf "<ul><li>a<ul><li>b</li></ul></li></ul>")) ∧
    (stripLiHandle
        (List.replicate 102
          (⟨FabricRichListType.Unordered, 0, 1⟩ : FabricRichListContext)) []).2 =
      List.replicate 404 32 ++ bulletMarker ∧
    400 < 404 := by
  refine ⟨by decide, by decide, by decide, by decide⟩

/-- C5 (amended): in parseMarkupToSegments the li-open indent level is
min(stackSize - 1, 100), so at most 400 indent spaces precede the marker in
the segment text; in stripHtmlTags the li handler appends the uncapped
4 x (stackSize - 1) spaces before the marker, and the indent survives only
in that intermediate buffer, not in the collapsed final output. -/
theorem claimC5_li_indent :
    (∀ n : Nat, liIndentLevel n = min (n - 1) 100 ∧ liIndentLevel n * 4 ≤ 400) ∧
    (∀ (st : ParseState) (ctx : FabricRichListContext)
        (restL : List FabricRichListContext),
      st.listStack = ctx :: restL →
      (liOpenStep st).currentText =
        (liNewline st).currentText ++
          List.replicate (liIndentLevel (restL.length + 1) * 4) 32 ++
          (if ctx.type == FabricRichListType.Ordered
           then decDigits (ctx.itemCounter + 1) ++ [46, 32] else bulletMarker)) ∧
    (∀ (ctx : FabricRichListContext) (restL : List FabricRichListContext),
      (stripLiHandle (ctx :: restL) []).2 =
        List.replicate (restL.length * 4) 32 ++
          (if ctx.type == FabricRichListType.Ordered
           then decDigits (ctx.itemCounter + 1) ++ [46, 32] else bulletMarker)) ∧
    (parseMarkupToSegments (bytesOf "<ul><ul><li>x")).map (fun s => s.text) =
      [List.replicate 4 32 ++ bulletMarker ++ [120]] := by
  refine ⟨?_, ?_, ?_, by decide⟩
  · intro n
    unfold liIndentLevel
    dsimp only
    constructor
    · split_ifs with h <;> omega
    · split_ifs with h <;> omega
  · intro st ctx restL hstack
    unfold liOpenStep
    dsimp only
    rw [liNewline_stack st, hstack]
    dsimp only
    rw [List.length_cons]
    by_cases hpos : liIndentLevel (restL.length + 1) > 0
    · rw [if_pos hpos]
      by_cases hord : (ctx.type == FabricRichListType.Ordered) = true
      · rw [if_pos hord]
        simp [appendText, List.append_assoc]
      · rw [if_neg hord]
        simp [appendText, List.append_assoc]
    · rw [if_neg hpos]
      have h0 : liIndentLevel (restL.length + 1) = 0 := by omega
      rw [h0]
      by_cases hord : (ctx.type == FabricRichListType.Ordered) = true
      · rw [if_pos hord]
        simp [appendText]
      · rw [if_neg hord]
        simp [appendText]
  · intro ctx restL
    unfold stripLiHandle
    dsimp only
    rw [List.length_cons, Nat.add_sub_cancel]
    by_cases hlen : restL.length > 0
    · rw [if_pos hlen]
      by_cases hord : (ctx.type == FabricRichListType.Ordered) = true
      · have he : ctx.type = FabricRichListType.Ordered := beq_iff_eq.mp hord
        simp [he, List.append_assoc]
      · have he : ¬ctx.type = FabricRichListType.Ordered := by simpa using hord
        simp [he, List.append_assoc]
    · rw [if_neg hlen]
      have h0 : restL.length = 0 := by omega
      rw [h0]
      by_cases hord : (ctx.type == FabricRichListType.Ordered) = true
      · have he : ctx.type = FabricRichListType.Ordered := beq_iff_eq.mp hord
        simp [he]
      · have he : ¬ctx.type = FabricRichListType.Ordered := by simpa using hord
        simp [he]

/-- C5 witness: a parser state whose list stack holds 102 contexts receives
exactly 400 indent spaces, the cap, before the bullet marker. -/
theorem claimC5_li_indent_witness :
    ({ initState with
        listStack := List.replicate 102
          (⟨FabricRichListType.Unordered, 0, 1⟩ : FabricRichListContext) } :
          ParseState).listStack =
      (⟨FabricRichListType.Unordered, 0, 1⟩ : FabricRichListContext) ::
        List.replicate 101 ⟨FabricRichListType.Unordered, 0, 1⟩ ∧
    (liOpenStep { initState with
        listStack := List.replicate 102
          (⟨FabricRichListType.Unordered, 0, 1⟩ : FabricRichListContext) }).currentText =
      List.replicate 400 32 ++ bulletMarker := by
  refine ⟨by decide, ?_⟩
  have h := claimC5_li_indent.2.1
    { initState with
        listStack := List.replicate 102
          (⟨FabricRichListType.Unordered, 0, 1⟩ : FabricRichListContext) }
    ⟨FabricRichListType.Unordered, 0, 1⟩
    (List.replicate 101 ⟨FabricRichListType.Unordered, 0, 1⟩) (by decide)
  rw [h]
  decide

/-! ### Stale link state after block close (claim C1) -/

/-- C1: refuted by the code.  On a link left unclosed across a block
boundary, the block-close branch runs updateStyleFromStack BEFORE it clears
linkDepth and linkUrlStack (MarkupSegmentParser.cpp lines 293-302), so the
cached currentLink and currentLinkUrl remain those of the open link; the
text after the block close is emitted as a segment with isLink true and the
old URL, and the URL appears twice in the parallel array of the full
pipeline, contradicting the claimed security invariant. -/
theorem claimC1_stale_link_after_block_close :
    (parseMarkupToSegments (bytesOf "<a href=\"https://x\">t</p>more")).map
        (fun s => (s.text, s.isLink, s.linkUrl)) =
      [(bytesOf "t\n", true, bytesOf "https://x"),
       (bytesOf "more", true, bytesOf "https://x")] ∧
    (parseMarkupWithLinkUrls (bytesOf "<a href=\"https://x\">t</p>more")).linkUrls =
      [bytesOf "https://x", bytesOf "https://x"] :=
  ⟨by decide, by decide⟩

/-- C4 witness: the byte a of the concrete label is neither angle
bracket. -/
theorem claimC4_witness :
    97 ∈ (parseMarkupWithLinkUrls (bytesOf "<b>a</b>")).accessibilityLabel ∧
    97 ≠ 60 ∧ 97 ≠ 62 :=
  ⟨by decide,
   claimC4_label_no_angle_brackets (bytesOf "<b>a</b>") 97 (by decide)⟩
